import Mathlib

/-!
Shallow embedding of the ckb-cinnabar transaction-skeleton engine
(`calculate` crate: `skeleton.rs`, `rpc.rs`, `operation/basic.rs`,
`operation/dao.rs`, `operation/spore/mod.rs`) together with theorems
settling the specification claims about it.

Machine integers (`u64` capacities, `u32` indices) are modelled as `Nat`:
the source uses `Capacity::safe_add` / `safe_sub`, which abort instead of
wrapping, so `Nat` arithmetic models every non-aborting execution.
Byte strings are `List Nat`. External library functions (the blake2b
hash from `ckb_hash`, the molecule serialization of `ckb_types`) are not
part of this repository; they enter either as explicit function
parameters (`blake`, `scriptHash`) or as a small model of their
interface contract (see `witnessArgsBytes`).
-/

namespace Cinnabar

/-- Little-endian byte encoding of `n` in exactly `k` bytes, the model of
`u64::to_le_bytes` / `usize::to_le_bytes` (k = 8) and `u32` packing (k = 4). -/
def leBytes : Nat → Nat → List Nat
  | 0, _ => []
  | k + 1, n => n % 256 :: leBytes k (n / 256)

/-! ## Data model (`skeleton.rs`) -/

/-- `ScriptHashType` from `ckb_types`: `Data` (0), `Type` (1), `Data1` (2). -/
inductive HashType where
  | data
  | typeId
  | data1
deriving DecidableEq, Repr

/-- A concrete packed `Script`: code hash, hash type, args. -/
structure Script where
  codeHash : List Nat
  hashType : HashType
  args : List Nat
deriving DecidableEq, Repr

/-- `ScriptEx`: either a concrete script or a named reference to a celldep
(`skeleton.rs` lines 27-31). -/
inductive ScriptEx where
  | script (codeHash : List Nat) (hashType : HashType) (args : List Nat)
  | reference (name : String) (args : List Nat)
deriving DecidableEq, Repr

/-- `ScriptEx::new_type` — a `Type` hash-type script. -/
def ScriptEx.newType (typeHash : List Nat) (args : List Nat) : ScriptEx :=
  ScriptEx.script typeHash HashType.typeId args

/-- `ScriptEx::new_code` — a `Data1` hash-type script. -/
def ScriptEx.newCode (codeHash : List Nat) (args : List Nat) : ScriptEx :=
  ScriptEx.script codeHash HashType.data1 args

/-- `ScriptEx::args`. -/
def ScriptEx.getArgs : ScriptEx → List Nat
  | .script _ _ args => args
  | .reference _ args => args

/-- `ScriptEx::set_args`. -/
def ScriptEx.setArgs : ScriptEx → List Nat → ScriptEx
  | .script codeHash hashType _, args => .script codeHash hashType args
  | .reference name _, args => .reference name args

/-- `OutPoint`: transaction hash plus output index. -/
structure OutPoint where
  txHash : List Nat
  index : Nat
deriving DecidableEq, Repr

/-- `CellInput`: previous out-point plus `since`. -/
structure CellInput where
  previousOutput : OutPoint
  since : Nat
deriving DecidableEq, Repr

/-- Raw bytes of a packed `CellInput` (`CellInput::as_bytes`): the molecule
struct layout is `since` (8 bytes) then `previous_output` (32-byte tx hash,
4-byte index). -/
def cellInputBytes (i : CellInput) : List Nat :=
  leBytes 8 i.since ++ i.previousOutput.txHash ++ leBytes 4 i.previousOutput.index

/-- `CellOutput`: lock script, optional type script, declared capacity
(shannons). -/
structure CellOutput where
  lock : Script
  typ : Option Script
  capacity : Nat
deriving DecidableEq, Repr

/-- `CellOutputEx` — a `CellOutput` together with its cell data
(`skeleton.rs` lines 267-271). -/
structure CellOutputEx where
  output : CellOutput
  data : List Nat
deriving DecidableEq, Repr

/-- Occupied capacity of a script in bytes (`Script::occupied_capacity`):
32-byte code hash + 1 hash-type byte + args. -/
def scriptOccupiedBytes (s : Script) : Nat := 32 + 1 + s.args.length

/-- `CellOutputEx::occupied_capacity` in shannons
(`CellOutput::occupied_capacity(Capacity::bytes(data.len()))`):
8 capacity bytes + lock + optional type + data, times 10^8. -/
def CellOutputEx.occupiedCapacity (c : CellOutputEx) : Nat :=
  (8 + scriptOccupiedBytes c.output.lock +
    (match c.output.typ with
     | some t => scriptOccupiedBytes t
     | none => 0) + c.data.length) * 100000000

/-- Same computation for a bare `CellOutput` and an explicit data length, the
model of `build_exact_capacity(Capacity::bytes(len))`. -/
def exactCapacity (lock : Script) (typ : Option Script) (dataLen : Nat) : Nat :=
  (8 + scriptOccupiedBytes lock +
    (match typ with
     | some t => scriptOccupiedBytes t
     | none => 0) + dataLen) * 100000000

/-- `CellInputEx` — a `CellInput` with the consumed output and a data flag
(`skeleton.rs` lines 184-188). -/
structure CellInputEx where
  input : CellInput
  output : CellOutputEx
  withData : Bool
deriving DecidableEq, Repr

/-- `impl PartialEq for CellInputEx` (`skeleton.rs` lines 190-194):
equality compares the raw bytes of the packed `CellInput` only. -/
def cellInputExEq (a b : CellInputEx) : Bool :=
  cellInputBytes a.input = cellInputBytes b.input

/-- `DepType`: ordinary code dep or dep group. -/
inductive DepType where
  | code
  | depGroup
deriving DecidableEq, Repr

/-- `CellDep`: out-point plus dep type. -/
structure CellDep where
  outPoint : OutPoint
  depType : DepType
deriving DecidableEq, Repr

/-- Raw bytes of a packed `CellDep` (`CellDep::as_bytes`): out-point bytes
followed by the dep-type byte. -/
def cellDepBytes (d : CellDep) : List Nat :=
  d.outPoint.txHash ++ leBytes 4 d.outPoint.index ++
    [match d.depType with | .code => 0 | .depGroup => 1]

/-- `CellDepEx` — named cell dependency with resolved output and data flag
(`skeleton.rs` lines 337-343). -/
structure CellDepEx where
  name : String
  celldep : CellDep
  output : CellOutputEx
  withData : Bool
deriving DecidableEq, Repr

/-- `impl PartialEq for CellDepEx` (`skeleton.rs` lines 345-349):
equality compares the raw bytes of the packed `CellDep` only. -/
def cellDepExEq (a b : CellDepEx) : Bool :=
  cellDepBytes a.celldep = cellDepBytes b.celldep

/-- `WitnessEx` (`skeleton.rs` lines 432-439). -/
structure WitnessEx where
  empty : Bool
  traditional : Bool
  lock : List Nat
  inputType : List Nat
  outputType : List Nat
deriving DecidableEq, Repr

/-- `WitnessEx::default()`: the empty traditional witness. -/
def WitnessEx.default : WitnessEx :=
  ⟨true, true, [], [], []⟩

/-- `WitnessEx::new`. -/
def WitnessEx.new (lock inputType outputType : List Nat) : WitnessEx :=
  ⟨false, true, lock, inputType, outputType⟩

/-- `WitnessEx::new_plain`. -/
def WitnessEx.newPlain (plainBytes : List Nat) : WitnessEx :=
  ⟨false, false, plainBytes, [], []⟩

/-- A block header, reduced to the fields the engine reads. -/
structure Header where
  number : Nat
  timestamp : Nat
  hash : List Nat
deriving DecidableEq, Repr

/-- Modelled from the spec: "Header Dependency — {block hash, header}".
The `HeaderDepEx` type used by `operation/dao.rs` comes from a skeleton
revision that is not part of this snapshot's `src/`. -/
structure HeaderDepEx where
  blockHash : List Nat
  header : Header
deriving DecidableEq, Repr

/-- `TransactionSkeleton` (`skeleton.rs` lines 526-531), extended with the
`headerdeps` field that the `operation/dao.rs` revision requires. -/
structure TransactionSkeleton where
  inputs : List CellInputEx
  outputs : List CellOutputEx
  celldeps : List CellDepEx
  headerdeps : List HeaderDepEx
  witnesses : List WitnessEx
deriving DecidableEq, Repr

/-- `TransactionSkeleton::default()`. -/
def TransactionSkeleton.empty : TransactionSkeleton :=
  ⟨[], [], [], [], []⟩

/-- The engine's error taxonomy.  Constructors are named after the spec's
error kinds; each doc line records the `eyre!` message the source raises. -/
inductive Err where
  /-- "input already exists" -/
  | duplicateInput
  /-- "no available input" -/
  | insufficientFunds
  /-- "failed to balance transaction" -/
  | balanceInvariantViolated
  /-- "change output index out of range" -/
  | changeIndexOutOfRange
  /-- "capacity not enough" -/
  | capacityTooSmall
  /-- "empty input" -/
  | emptyInputs
  /-- "celldep not found" -/
  | referenceUnresolved
  /-- "no support for group celldep" -/
  | groupCelldepUnsupported
  /-- "celldep without data, cannot calculate data hash" -/
  | celldepDataUnknown
  /-- "invalid witness args" -/
  | invalidWitnessArgs
  /-- "cell not found at (tx_hash:index)" -/
  | cellNotFound
  /-- "no available DAO deposit cells" -/
  | noAvailableDaoDeposit
deriving DecidableEq, Repr

/-! ## Skeleton mutators (`skeleton.rs`) -/

namespace TransactionSkeleton

/-- `TransactionSkeleton::contains_input`: membership via the
byte-comparing `PartialEq` of `CellInputEx`. -/
def containsInput (s : TransactionSkeleton) (ci : CellInputEx) : Bool :=
  s.inputs.any (fun x => cellInputExEq x ci)

/-- `TransactionSkeleton::input` (`skeleton.rs` lines 628-634): push a
single input, failing with `DuplicateInput` when an equal input (by raw
input bytes) is already present. -/
def input (s : TransactionSkeleton) (ci : CellInputEx) :
    Except Err TransactionSkeleton :=
  if s.containsInput ci then .error .duplicateInput
  else .ok { s with inputs := s.inputs ++ [ci] }

/-- `TransactionSkeleton::output`: push a single output, always succeeds. -/
def output (s : TransactionSkeleton) (co : CellOutputEx) : TransactionSkeleton :=
  { s with outputs := s.outputs ++ [co] }

/-- `TransactionSkeleton::contains_celldep`. -/
def containsCelldep (s : TransactionSkeleton) (cd : CellDepEx) : Bool :=
  s.celldeps.any (fun x => cellDepExEq x cd)

/-- `TransactionSkeleton::celldep` (`skeleton.rs` lines 745-750): push a
cell dep, silently skipping when an equal dep (by raw celldep bytes) is
already present. -/
def celldep (s : TransactionSkeleton) (cd : CellDepEx) : TransactionSkeleton :=
  if s.containsCelldep cd then s
  else { s with celldeps := s.celldeps ++ [cd] }

/-- `TransactionSkeleton::get_celldep_by_name`. -/
def getCelldepByName (s : TransactionSkeleton) (name : String) : Option CellDepEx :=
  s.celldeps.find? (fun cd => cd.name = name)

/-- Modelled from the spec: push a header dependency with silent
deduplication (mirroring `celldep`; the revision of `skeleton.rs` carrying
`headerdep` is not in this snapshot's `src/`). -/
def headerdep (s : TransactionSkeleton) (hd : HeaderDepEx) : TransactionSkeleton :=
  if s.headerdeps.contains hd then s
  else { s with headerdeps := s.headerdeps ++ [hd] }

/-- `TransactionSkeleton::witness`: push a single witness. -/
def witness (s : TransactionSkeleton) (w : WitnessEx) : TransactionSkeleton :=
  { s with witnesses := s.witnesses ++ [w] }

/-- `TransactionSkeleton::total_inputs_capacity`. -/
def totalInputsCapacity (s : TransactionSkeleton) : Nat :=
  (s.inputs.map (fun i => i.output.output.capacity)).sum

/-- `TransactionSkeleton::total_outputs_capacity`. -/
def totalOutputsCapacity (s : TransactionSkeleton) : Nat :=
  (s.outputs.map (fun o => o.output.capacity)).sum

/-- `TransactionSkeleton::exceeded_capacity` (`skeleton.rs` lines 812-820):
total input capacity minus total output capacity, saturating at zero. -/
def exceededCapacity (s : TransactionSkeleton) : Nat :=
  s.totalInputsCapacity - s.totalOutputsCapacity

/-- `TransactionSkeleton::needed_capacity`: the opposite difference,
saturating at zero. -/
def neededCapacity (s : TransactionSkeleton) : Nat :=
  s.totalOutputsCapacity - s.totalInputsCapacity

/-- `TransactionSkeleton::calc_type_id` (`skeleton.rs` lines 840-852):
blake2b-256 (with the fixed "ckb-default-hash" personalization, supplied
here as the parameter `blake`) of the first input's raw bytes concatenated
with the little-endian 8-byte output index; `EmptyInputs` when the
skeleton has no inputs. -/
def calcTypeId (blake : List Nat → List Nat) (s : TransactionSkeleton)
    (outIndex : Nat) : Except Err (List Nat) :=
  match s.inputs with
  | [] => .error .emptyInputs
  | firstInput :: _ =>
    .ok (blake (cellInputBytes firstInput.input ++ leBytes 8 outIndex))

end TransactionSkeleton

/-- `CellOutputEx::calc_type_hash`: script hash of the type script, when
present.  `scriptHash` is the blake2b hash of the packed script, an
external-library function supplied as a parameter. -/
def CellOutputEx.calcTypeHash (scriptHash : Script → List Nat)
    (c : CellOutputEx) : Option (List Nat) :=
  c.output.typ.map scriptHash

/-- `CellOutputEx::data_hash`: blake2b-256 of the cell data. -/
def CellOutputEx.dataHash (blake : List Nat → List Nat) (c : CellOutputEx) :
    List Nat :=
  blake c.data

/-- `TransactionSkeleton::find_celldep_by_script` restricted to the
`Reference` branch (`skeleton.rs` lines 855-868): find the first celldep
with the referenced name. -/
def TransactionSkeleton.findCelldepByScript (s : TransactionSkeleton)
    (name : String) : Option CellDepEx :=
  s.celldeps.find? (fun cd => cd.name = name)

/-- `ScriptEx::to_script` (`skeleton.rs` lines 105-131): a concrete script
converts directly; a `Reference` resolves against the skeleton's celldeps,
failing when the name is absent, when the dep is a dep group, or when it
has neither a type script nor known data. -/
def ScriptEx.toScript (blake : List Nat → List Nat)
    (scriptHash : Script → List Nat) (s : TransactionSkeleton) :
    ScriptEx → Except Err Script
  | .script codeHash hashType args => .ok ⟨codeHash, hashType, args⟩
  | .reference name args =>
    match s.findCelldepByScript name with
    | none => .error .referenceUnresolved
    | some value =>
      if value.celldep.depType = DepType.depGroup then
        .error .groupCelldepUnsupported
      else
        match value.output.calcTypeHash scriptHash with
        | some celldepTypeHash =>
          .ok ⟨celldepTypeHash, HashType.typeId, args⟩
        | none =>
          if !value.withData then .error .celldepDataUnknown
          else .ok ⟨value.output.dataHash blake, HashType.data1, args⟩

/-! ## Balancing (`skeleton.rs` lines 896-947) -/

/-- `ChangeReceiver` (`skeleton.rs` lines 1117-1124).  An `Address` is an
encoding of its payload lock script, so the `Address` branch carries the
concrete lock script directly. -/
inductive ChangeReceiver where
  | address (lock : Script)
  | script (lock : ScriptEx)
  | output (index : Nat)

namespace TransactionSkeleton

/-- `TransactionSkeleton::output_from_script` (`skeleton.rs` lines 713-723):
append an output owned by `lockScript` whose declared capacity exactly
covers an empty-data cell (`build_exact_capacity(Capacity::zero())`),
carrying `data`. -/
def outputFromScript (blake : List Nat → List Nat)
    (scriptHash : Script → List Nat) (s : TransactionSkeleton)
    (lockScript : ScriptEx) (data : List Nat) :
    Except Err TransactionSkeleton := do
  let lock ← lockScript.toScript blake scriptHash s
  .ok (s.output ⟨⟨lock, none, exactCapacity lock none 0⟩, data⟩)

/-- The balancing loop of `TransactionSkeleton::balance` (`skeleton.rs`
lines 931-933): while the exceeded capacity is below `fee`, pull the next
live balancer-owned cell (the gateway's search result, `candidates`) that
is not yet an input and append it; `InsufficientFunds` when the gateway
runs out (`input_from_script`'s "no available input"). -/
def balanceLoop (fee : Nat) : List CellInputEx → TransactionSkeleton →
    Except Err TransactionSkeleton
  | [], s =>
    if fee ≤ s.exceededCapacity then .ok s else .error .insufficientFunds
  | c :: rest, s =>
    if fee ≤ s.exceededCapacity then .ok s
    else if s.containsInput c then balanceLoop fee rest s
    else balanceLoop fee rest { s with inputs := s.inputs ++ [c] }

/-- Raise the declared capacity of the output at `index` by `delta`
(the change-output adjustment of `balance`, `skeleton.rs` lines 934-942). -/
def bumpOutputCapacity (s : TransactionSkeleton) (index delta : Nat) :
    TransactionSkeleton :=
  match s.outputs[index]? with
  | none => s
  | some o =>
    { s with outputs :=
        s.outputs.set index ⟨⟨o.output.lock, o.output.typ,
          o.output.capacity + delta⟩, o.data⟩ }

/-- The final defensive check of `balance` (`skeleton.rs` lines 943-945):
succeed only when the surplus now equals `fee` exactly, otherwise fail
with `BalanceInvariantViolated` ("failed to balance transaction"). -/
def balanceFinish (fee : Nat) (s : TransactionSkeleton) :
    Except Err TransactionSkeleton :=
  if s.exceededCapacity = fee then .ok s
  else .error .balanceInvariantViolated

/-- `TransactionSkeleton::balance` (`skeleton.rs` lines 908-947):
establish the change output, run the balancing loop over the balancer's
live cells, add the surplus beyond `fee` to the change output, and apply
the defensive final check. -/
def balance (blake : List Nat → List Nat) (scriptHash : Script → List Nat)
    (fee : Nat) (candidates : List CellInputEx)
    (changeReceiver : ChangeReceiver) (s : TransactionSkeleton) :
    Except Err TransactionSkeleton := do
  let (s, changeCellIndex) ←
    match changeReceiver with
    | .address changer =>
      (do
        let s ← s.outputFromScript blake scriptHash
          (ScriptEx.script changer.codeHash changer.hashType changer.args) []
        .ok (s, s.outputs.length - 1))
    | .script changer =>
      (do
        let s ← s.outputFromScript blake scriptHash changer []
        .ok (s, s.outputs.length - 1))
    | .output index =>
      if s.outputs.length ≤ index then .error .changeIndexOutOfRange
      else .ok (s, index)
  let s ← balanceLoop fee candidates s
  let exceededCapacityBeyondFee := s.exceededCapacity - fee
  let s := s.bumpOutputCapacity changeCellIndex exceededCapacityBeyondFee
  balanceFinish fee s

end TransactionSkeleton

/-- The witness-padding tail of `BalanceTransaction::run`
(`operation/basic.rs` lines 706-708): append default witnesses until the
witness count reaches the input count. -/
def padWitnesses (s : TransactionSkeleton) : TransactionSkeleton :=
  { s with witnesses :=
      s.witnesses ++
        List.replicate (s.inputs.length - s.witnesses.length) WitnessEx.default }

/-- `BalanceTransaction::run` (`operation/basic.rs` lines 696-711): estimate
the fee, balance, then pad witnesses to the input count.  Fee estimation
(`skeleton.fee`) multiplies the serialized transaction size by the pool fee
rate; the serialized size comes from the external molecule layer, so the
already-estimated fee is taken here as the parameter `fee`. -/
def BalanceTransaction.run (blake : List Nat → List Nat)
    (scriptHash : Script → List Nat) (fee : Nat)
    (candidates : List CellInputEx) (changeReceiver : ChangeReceiver)
    (s : TransactionSkeleton) : Except Err TransactionSkeleton := do
  let s ← s.balance blake scriptHash fee candidates changeReceiver
  .ok (padWitnesses s)

/-! ## `AddOutputCell` (`operation/basic.rs` lines 386-438) -/

/-- `TYPE_ID_CODE_HASH` from `ckb_sdk::constants`: the well-known
"TYPE_ID" code hash (25 zero bytes followed by the ASCII of "TYPE_ID"). -/
def typeIdCodeHash : List Nat :=
  List.replicate 25 0 ++ [0x54, 0x59, 0x50, 0x45, 0x5f, 0x49, 0x44]

/-- `AddOutputCell` operation parameters (`operation/basic.rs` lines
386-393). -/
structure AddOutputCell where
  lockScript : ScriptEx
  typeScript : Option ScriptEx
  capacity : Nat
  data : List Nat
  absoluteCapacity : Bool
  typeId : Bool

/-- The type-script resolution step of `AddOutputCell::run`
(`operation/basic.rs` lines 403-417): when `type_id` is set, derive the
unique id from the first input and the upcoming output index and inject it
into the type script's args (defaulting to the well-known TYPE_ID
script). -/
def AddOutputCell.resolveTypeScript (blake : List Nat → List Nat)
    (scriptHash : Script → List Nat) (op : AddOutputCell)
    (s : TransactionSkeleton) : Except Err (Option Script) :=
  if op.typeId then do
    let typeId ← s.calcTypeId blake s.outputs.length
    let ts :=
      match op.typeScript with
      | some v => v.setArgs typeId
      | none => ScriptEx.newType typeIdCodeHash typeId
    some <$> ts.toScript blake scriptHash s
  else
    match op.typeScript with
    | some v => some <$> v.toScript blake scriptHash s
    | none => .ok none

/-- `AddOutputCell::run` (`operation/basic.rs` lines 396-438): resolve the
scripts (deriving and injecting a unique type id when requested), build the
output at its exact minimal capacity, then either add the requested amount
on top (additional mode) or take the requested absolute capacity — failing
with `CapacityTooSmall` ("capacity not enough") unless it strictly exceeds
the minimal capacity. -/
def AddOutputCell.run (blake : List Nat → List Nat)
    (scriptHash : Script → List Nat) (op : AddOutputCell)
    (s : TransactionSkeleton) : Except Err TransactionSkeleton := do
  let typeScript ← op.resolveTypeScript blake scriptHash s
  let lock ← op.lockScript.toScript blake scriptHash s
  let minimalCapacity := exactCapacity lock typeScript op.data.length
  let capacity ←
    if !op.absoluteCapacity then
      .ok (minimalCapacity + op.capacity)
    else if minimalCapacity < op.capacity then
      .ok op.capacity
    else
      (.error .capacityTooSmall : Except Err Nat)
  .ok (s.output ⟨⟨lock, typeScript, capacity⟩, op.data⟩)

/-! ## Wire transaction round trip (`skeleton.rs` lines 535-625, 1012-1037)

The molecule serialization of `WitnessArgs` lives in the external
`ckb_types` crate.  It is modelled here by a length-prefixed encoding that
preserves the two facts the engine relies on: serialized witness args
round-trip through `from_slice`, and an empty witness serializes to zero
bytes, which `from_slice` rejects. -/

/-- One optional byte-field of the witness-args encoding. -/
def fieldBytes (b : List Nat) : List Nat := b.length :: b

/-- Model of `WitnessArgs::as_bytes`: the three optional fields in order. -/
def witnessArgsBytes (lock inputType outputType : List Nat) : List Nat :=
  fieldBytes lock ++ fieldBytes inputType ++ fieldBytes outputType

/-- Read back one length-prefixed field. -/
def readField : List Nat → Option (List Nat × List Nat)
  | [] => none
  | n :: rest =>
    if n ≤ rest.length then some (rest.take n, rest.drop n) else none

/-- Model of `WitnessArgs::from_slice`: parse the three fields, requiring
the whole slice to be consumed; zero bytes (and any truncated slice) are
rejected. -/
def witnessArgsFromSlice (bytes : List Nat) :
    Option (List Nat × List Nat × List Nat) := do
  let (lock, rest) ← readField bytes
  let (inputType, rest) ← readField rest
  let (outputType, rest) ← readField rest
  if rest = [] then some (lock, inputType, outputType) else none

/-- `WitnessEx::into_packed_bytes` (`skeleton.rs` lines 497-510): an empty
witness becomes zero bytes; a traditional witness becomes packed witness
args; a plain witness is the raw concatenation of its buffers. -/
def WitnessEx.intoPackedBytes (w : WitnessEx) : List Nat :=
  let empty :=
    if w.lock ≠ [] ∨ w.inputType ≠ [] ∨ w.outputType ≠ [] then false
    else w.empty
  if empty then []
  else if w.traditional then witnessArgsBytes w.lock w.inputType w.outputType
  else w.lock ++ w.inputType ++ w.outputType

/-- The packed `TransactionView`: the wire format. -/
structure TransactionView where
  inputs : List CellInput
  outputs : List (CellOutput × List Nat)
  celldeps : List CellDep
  witnesses : List (List Nat)
deriving DecidableEq, Repr

/-- `TransactionSkeleton::into_transaction_view` (`skeleton.rs` lines
1012-1037).  (The revision under `src/calculate` does not emit header
deps.) -/
def TransactionSkeleton.intoTransactionView (s : TransactionSkeleton) :
    TransactionView :=
  { inputs := s.inputs.map (fun v => v.input)
    outputs := s.outputs.map (fun v => (v.output, v.data))
    celldeps := s.celldeps.map (fun v => v.celldep)
    witnesses := s.witnesses.map WitnessEx.intoPackedBytes }

/-- A chain gateway's `get_live_cell`, as a function from out-point and
`with_data` flag to the cell's output and (optionally) data. -/
def GetLiveCell : Type :=
  OutPoint → Bool → Option (CellOutput × Option (List Nat))

/-- `CellInputEx::new` (`skeleton.rs` lines 198-212). -/
def CellInputEx.new (input : CellInput) (output : CellOutput)
    (data : Option (List Nat)) : CellInputEx :=
  match data with
  | some d => ⟨input, ⟨output, d⟩, true⟩
  | none => ⟨input, ⟨output, []⟩, false⟩

/-- `CellInputEx::new_from_outpoint` (`skeleton.rs` lines 215-241): fetch
the live cell and rebuild the input from the out-point and `since`. -/
def CellInputEx.newFromOutpoint (g : GetLiveCell) (outPoint : OutPoint)
    (since : Option Nat) (withData : Bool) : Except Err CellInputEx :=
  match g outPoint withData with
  | none => .error .cellNotFound
  | some (output, data) =>
    .ok (CellInputEx.new ⟨outPoint, since.getD 0⟩ output data)

/-- `CellDepEx::new` (`skeleton.rs` lines 353-369). -/
def CellDepEx.new (name : String) (cellDep : CellDep) (output : CellOutput)
    (data : Option (List Nat)) : CellDepEx :=
  match data with
  | some d => ⟨name, cellDep, ⟨output, d⟩, true⟩
  | none => ⟨name, cellDep, ⟨output, []⟩, false⟩

/-- `CellDepEx::new_from_outpoint` (`skeleton.rs` lines 372-399). -/
def CellDepEx.newFromOutpoint (g : GetLiveCell) (name : String)
    (outPoint : OutPoint) (depType : DepType) (withData : Bool) :
    Except Err CellDepEx :=
  match g outPoint withData with
  | none => .error .cellNotFound
  | some (output, data) =>
    .ok (CellDepEx.new name ⟨outPoint, depType⟩ output data)

/-- `update_inputs_from_transaction_view` (`skeleton.rs` lines 548-566):
each wire input is refetched with its data. -/
def updateInputsFromTransactionView (g : GetLiveCell) (tx : TransactionView) :
    Except Err (List CellInputEx) :=
  tx.inputs.mapM (fun input =>
    CellInputEx.newFromOutpoint g input.previousOutput (some input.since) true)

/-- `update_celldeps_from_transaction_view` (`skeleton.rs` lines 569-592):
each wire dep is refetched without data under a synthetic name. -/
def updateCelldepsFromTransactionView (g : GetLiveCell)
    (tx : TransactionView) : Except Err (List CellDepEx) :=
  (tx.celldeps.enum.mapM (fun (i, cellDep) =>
    CellDepEx.newFromOutpoint g s!"unknown-{i}" cellDep.outPoint
      cellDep.depType false))

/-- `update_witnesses_from_transaction_view` (`skeleton.rs` lines 604-625):
parse each wire witness as witness args, failing on invalid bytes. -/
def updateWitnessesFromTransactionView (tx : TransactionView) :
    Except Err (List WitnessEx) :=
  tx.witnesses.mapM (fun w =>
    match witnessArgsFromSlice w with
    | none => .error .invalidWitnessArgs
    | some (lock, inputType, outputType) =>
      .ok (WitnessEx.new lock inputType outputType))

/-- `TransactionSkeleton::new_from_transaction_view` (`skeleton.rs` lines
535-545): rebuild a skeleton from the wire format, fetching inputs and
deps through the gateway. -/
def TransactionSkeleton.newFromTransactionView (g : GetLiveCell)
    (tx : TransactionView) : Except Err TransactionSkeleton := do
  let inputs ← updateInputsFromTransactionView g tx
  let celldeps ← updateCelldepsFromTransactionView g tx
  let outputs := tx.outputs.map (fun (output, data) =>
    (⟨output, data⟩ : CellOutputEx))
  let witnesses ← updateWitnessesFromTransactionView tx
  .ok { inputs := inputs, outputs := outputs, celldeps := celldeps,
        headerdeps := [], witnesses := witnesses }

/-! ## Cursor-based cell search (`rpc.rs` lines 287-332) -/

/-- A live cell as returned by the indexer's `get_cells`. -/
structure IndexerCell where
  output : CellOutput
  outputData : Option (List Nat)
  outPoint : OutPoint
  blockNumber : Nat
deriving DecidableEq, Repr

/-- One page of a paginated `get_cells` response. -/
structure CellsPage where
  objects : List IndexerCell
  lastCursor : List Nat
deriving DecidableEq, Repr

/-- The mutable state of `GetCellsIter`: the opaque cursor token. -/
structure GetCellsIter where
  cursor : Option (List Nat)
deriving DecidableEq, Repr

/-- `GetCellsIter::new`. -/
def GetCellsIter.new : GetCellsIter := ⟨none⟩

/-- The client-side filtering step of `next_batch` (`rpc.rs` lines
317-321): the page's objects restricted to the optional predicate. -/
def filteredObjects (filter : Option (IndexerCell → Bool))
    (objects : List IndexerCell) : List IndexerCell :=
  match filter with
  | some f => objects.filter f
  | none => objects

/-- `GetCellsIter::next_batch` (`rpc.rs` lines 312-327): request one page
from the gateway `gw` at the stored cursor, apply the optional client-side
filter, return `none` when the filtered list is empty and otherwise the
filtered cells, advancing the cursor to the page's `last_cursor`. -/
def GetCellsIter.nextBatch (gw : Option (List Nat) → Nat → CellsPage)
    (filter : Option (IndexerCell → Bool)) (limit : Nat)
    (it : GetCellsIter) : Option (List IndexerCell) × GetCellsIter :=
  let cells := gw it.cursor limit
  let objects := filteredObjects filter cells.objects
  if objects.isEmpty then (none, it)
  else (some objects, { cursor := some cells.lastCursor })

/-! ## DAO withdraw phase one (`operation/dao.rs` lines 120-217) -/

/-- `CellInputEx::new_from_indexer_cell` in the `operation/dao.rs`
revision: rebuild an input from an indexer cell and an optional `since`. -/
def CellInputEx.newFromIndexerCell (cell : IndexerCell) (since : Option Nat) :
    CellInputEx :=
  CellInputEx.new ⟨cell.outPoint, since.getD 0⟩ cell.output cell.outputData

/-- `CellOutputEx::new_from_scripts` (`skeleton.rs` lines 280-295): build
an output from scripts and data, at the given capacity or at the exact
minimal capacity when none is given. -/
def CellOutputEx.newFromScripts (lock : Script) (typ : Option Script)
    (data : List Nat) (capacity : Option Nat) : CellOutputEx :=
  match capacity with
  | some c => ⟨⟨lock, typ, c⟩, data⟩
  | none => ⟨⟨lock, typ, exactCapacity lock typ data.length⟩, data⟩

/-- The log side-channel: an append-only list of (hook key, bytes). -/
abbrev Log : Type := List (String × List Nat)

/-- `hookkey::DAO_WITHDRAW_PHASE_ONE`. -/
def daoWithdrawPhaseOneKey : String := "DAO_WITHDRAW_PHASE_ONE"

/-- `AddDaoWithdrawPhaseOneCells` parameters (`operation/dao.rs` lines
120-126). -/
structure AddDaoWithdrawPhaseOneCells where
  maximalWithdrawCapacity : Nat
  upperboundTimestamp : Nat
  owner : ScriptEx
  transferTo : Option ScriptEx
  throwIfNoAvailable : Bool

/-- `AddDaoWithdrawPhaseOneCells::check_deposit_timestamp`
(`operation/dao.rs` lines 143-157): look up the deposit block header by
number; a missing header is immature, otherwise compare the header
timestamp against the caller's upper bound. -/
def checkDepositTimestamp (headerByNumber : Nat → Option Header)
    (upperboundTimestamp : Nat) (depositBlockNumber : Nat) : Bool :=
  match headerByNumber depositBlockNumber with
  | none => false
  | some h => h.timestamp ≤ upperboundTimestamp

/-- `AddCellDep::run` specialized to the DAO celldep
(`AddDaoCelldep::run`, `operation/dao.rs` lines 61-81): when no celldep
named "dao" is present, fetch it from the gateway (`fetchDao` models the
`get_live_cell` lookup at the hardcoded DAO out-point) and push it. -/
def addDaoCelldep (fetchDao : Option CellDepEx) (s : TransactionSkeleton) :
    Except Err TransactionSkeleton :=
  match s.getCelldepByName "dao" with
  | some _ => .ok s
  | none =>
    match fetchDao with
    | none => .error .cellNotFound
    | some cd => .ok (s.celldep cd)

/-- The search loop of `AddDaoWithdrawPhaseOneCells::run`
(`operation/dao.rs` lines 174-203): walk the gateway's deposit cells in
order; skip immature ones; accumulate each mature cell's capacity and stop
(without adding the cell) once the accumulated capacity reaches the
requested maximum; otherwise add the cell as an input with a paired
withdraw output, a header dep on the deposit header and a default
witness. -/
def daoPhaseOneLoop (headerByNumber : Nat → Option Header)
    (headerByOutPoint : OutPoint → Option HeaderDepEx)
    (op : AddDaoWithdrawPhaseOneCells) (transferLock : Option Script) :
    List IndexerCell → Nat → TransactionSkeleton →
    Except Err (Nat × TransactionSkeleton)
  | [], acc, s => .ok (acc, s)
  | cell :: rest, acc, s =>
    if !checkDepositTimestamp headerByNumber op.upperboundTimestamp
        cell.blockNumber then
      daoPhaseOneLoop headerByNumber headerByOutPoint op transferLock
        rest acc s
    else
      let depositCell := CellInputEx.newFromIndexerCell cell none
      let capacity := depositCell.output.output.capacity
      let acc := acc + capacity
      if op.maximalWithdrawCapacity ≤ acc then .ok (acc, s)
      else
        match headerByOutPoint cell.outPoint with
        | none => .error .cellNotFound
        | some depositHeaderDep =>
          let withdrawCell := CellOutputEx.newFromScripts
            (transferLock.getD depositCell.output.output.lock)
            depositCell.output.output.typ
            (leBytes 8 depositHeaderDep.header.number) (some capacity)
          match s.input depositCell with
          | .error e => .error e
          | .ok s =>
            daoPhaseOneLoop headerByNumber headerByOutPoint op transferLock
              rest acc
              (((s.output withdrawCell).headerdep depositHeaderDep).witness
                WitnessEx.default)

/-- The transfer-lock resolution step of `AddDaoWithdrawPhaseOneCells::run`
(`operation/dao.rs` lines 169-173). -/
def daoTransferLock (blake : List Nat → List Nat)
    (scriptHash : Script → List Nat) (op : AddDaoWithdrawPhaseOneCells)
    (s : TransactionSkeleton) : Except Err (Option Script) :=
  match op.transferTo with
  | some t => some <$> t.toScript blake scriptHash s
  | none => .ok none

/-- `AddDaoWithdrawPhaseOneCells::run` (`operation/dao.rs` lines 159-217):
resolve the optional transfer lock, run the search loop over the
gateway's deposit cells, log the accumulated capacity, fail when nothing
was accumulated and the caller did not opt to tolerate it, and otherwise
ensure the DAO celldep. -/
def AddDaoWithdrawPhaseOneCells.run (blake : List Nat → List Nat)
    (scriptHash : Script → List Nat) (headerByNumber : Nat → Option Header)
    (headerByOutPoint : OutPoint → Option HeaderDepEx)
    (fetchDao : Option CellDepEx) (cells : List IndexerCell)
    (op : AddDaoWithdrawPhaseOneCells) (s : TransactionSkeleton)
    (log : Log) : Except Err (TransactionSkeleton × Log) := do
  let transferLock ← daoTransferLock blake scriptHash op s
  let (searchedCapacity, s) ←
    daoPhaseOneLoop headerByNumber headerByOutPoint op transferLock cells 0 s
  let log : Log :=
    log ++ [(daoWithdrawPhaseOneKey, leBytes 8 searchedCapacity)]
  if searchedCapacity = 0 then
    if op.throwIfNoAvailable then .error .noAvailableDaoDeposit
    else .ok (s, log)
  else do
    let s ← addDaoCelldep fetchDao s
    .ok (s, log)

/-! ## Spore action reconciliation (`operation/spore/mod.rs` lines 427-542) -/

/-- The action records of the co-build witness layout
(`operation/spore/generated`).  Each action carries the type script it was
built from (`(type_script, action).into()` in the source). -/
inductive SporeAction where
  | transferSpore (scr : Script) (fromLock toLock : Script) (sporeId : List Nat)
  | burnSpore (scr : Script) (fromLock : Script) (sporeId : List Nat)
  | mintSpore (scr : Script) (toLock : Script) (sporeId : List Nat)
      (dataHash : List Nat)
  | transferCluster (scr : Script) (fromLock toLock : Script)
      (clusterId : List Nat)
  | mintCluster (scr : Script) (toLock : Script) (clusterId : List Nat)
      (dataHash : List Nat)
deriving DecidableEq, Repr

/-- Placeholder for `type_script().unwrap()` on cells that are known (by
construction of the matched lists) to carry a type script. -/
def defaultScript : Script := ⟨[], HashType.data, []⟩

/-- `AddSporeActions::compare_code_hash` (`operation/spore/mod.rs` lines
430-439): keep a cell whose type-script code hash equals the target,
paired with its unique id (the type-script args). -/
def compareCodeHash (codeHash : List Nat) (cell : CellOutputEx) :
    Option (CellOutputEx × List Nat) :=
  match cell.output.typ with
  | some ts => if ts.codeHash = codeHash then some (cell, ts.args) else none
  | none => none

/-- The transfer/burn pass of `AddSporeActions::run` (`operation/spore/mod.rs`
lines 467-487): for each matched input in order, find the first remaining
matched output with an equal type script; emit a transfer and consume that
output on a hit, a burn on a miss.  Returns the actions and the
unconsumed outputs. -/
def sporeTransferBurn :
    List (CellOutputEx × List Nat) → List (CellOutputEx × List Nat) →
    List SporeAction × List (CellOutputEx × List Nat)
  | [], outs => ([], outs)
  | (inCell, sporeId) :: rest, outs =>
    match outs.find? (fun q => decide (q.1.output.typ = inCell.output.typ)) with
    | some (outCell, _) =>
      let step := sporeTransferBurn rest
        (outs.eraseP (fun q => decide (q.1.output.typ = inCell.output.typ)))
      (SporeAction.transferSpore (outCell.output.typ.getD defaultScript)
        inCell.output.lock outCell.output.lock sporeId :: step.1, step.2)
    | none =>
      let step := sporeTransferBurn rest outs
      (SporeAction.burnSpore (inCell.output.typ.getD defaultScript)
        inCell.output.lock sporeId :: step.1, step.2)

/-- The mint pass of `AddSporeActions::run` (`operation/spore/mod.rs` lines
489-496): every unconsumed matched output becomes a mint. -/
def sporeMints (blake : List Nat → List Nat)
    (outs : List (CellOutputEx × List Nat)) : List SporeAction :=
  outs.map (fun q =>
    SporeAction.mintSpore (q.1.output.typ.getD defaultScript)
      q.1.output.lock q.2 (q.1.dataHash blake))

/-- The cluster transfer pass (`operation/spore/mod.rs` lines 513-527):
like the spore pass but inputs without a matching output emit nothing. -/
def clusterTransfers :
    List (CellOutputEx × List Nat) → List (CellOutputEx × List Nat) →
    List SporeAction × List (CellOutputEx × List Nat)
  | [], outs => ([], outs)
  | (inCell, clusterId) :: rest, outs =>
    match outs.find? (fun q => decide (q.1.output.typ = inCell.output.typ)) with
    | some (outCell, _) =>
      let step := clusterTransfers rest
        (outs.eraseP (fun q => decide (q.1.output.typ = inCell.output.typ)))
      (SporeAction.transferCluster (outCell.output.typ.getD defaultScript)
        inCell.output.lock outCell.output.lock clusterId :: step.1, step.2)
    | none => clusterTransfers rest outs

/-- The cluster mint pass (`operation/spore/mod.rs` lines 529-536). -/
def clusterMints (blake : List Nat → List Nat)
    (outs : List (CellOutputEx × List Nat)) : List SporeAction :=
  outs.map (fun q =>
    SporeAction.mintCluster (q.1.output.typ.getD defaultScript)
      q.1.output.lock q.2 (q.1.dataHash blake))

/-- The matched input cells of a skeleton for a given contract code hash. -/
def matchedInputs (codeHash : List Nat) (s : TransactionSkeleton) :
    List (CellOutputEx × List Nat) :=
  s.inputs.filterMap (fun cell => compareCodeHash codeHash cell.output)

/-- The matched output cells of a skeleton for a given contract code hash. -/
def matchedOutputs (codeHash : List Nat) (s : TransactionSkeleton) :
    List (CellOutputEx × List Nat) :=
  s.outputs.filterMap (compareCodeHash codeHash)

/-- The spore-contract actions emitted by one run of `AddSporeActions`:
transfers and burns in input order, then mints. -/
def sporeActionsOf (blake : List Nat → List Nat) (sporeCodeHash : List Nat)
    (s : TransactionSkeleton) : List SporeAction :=
  let step := sporeTransferBurn (matchedInputs sporeCodeHash s)
    (matchedOutputs sporeCodeHash s)
  step.1 ++ sporeMints blake step.2

/-- The cluster-contract actions emitted by one run of `AddSporeActions`. -/
def clusterActionsOf (blake : List Nat → List Nat)
    (clusterCodeHash : List Nat) (s : TransactionSkeleton) :
    List SporeAction :=
  let step := clusterTransfers (matchedInputs clusterCodeHash s)
    (matchedOutputs clusterCodeHash s)
  step.1 ++ clusterMints blake step.2

/-- `AddSporeActions::run` (`operation/spore/mod.rs` lines 444-541) on a
mainnet/testnet network, where the hardcoded spore and cluster scripts are
concrete (so the `to_script` calls cannot fail): reconcile both contracts
and append the aggregated actions as one plain witness.  `actionsBytes`
models the external molecule serialization of the co-build
`WitnessLayout`. -/
def AddSporeActions.run (blake : List Nat → List Nat)
    (actionsBytes : List SporeAction → List Nat)
    (sporeCodeHash clusterCodeHash : List Nat) (s : TransactionSkeleton) :
    TransactionSkeleton :=
  s.witness (WitnessEx.newPlain (actionsBytes
    (sporeActionsOf blake sporeCodeHash s ++
      clusterActionsOf blake clusterCodeHash s)))

/-! ## Auxiliary definitions for the theorem statements -/

/-- Well-formed machine-level input: the tx hash is 32 bytes and the
numeric fields fit their wire widths (`u64` since, `u32` index). -/
def wfInput (i : CellInput) : Prop :=
  i.previousOutput.txHash.length = 32 ∧ i.since < 2 ^ 64 ∧
    i.previousOutput.index < 2 ^ 32

instance (i : CellInput) : Decidable (wfInput i) := by
  unfold wfInput; infer_instance

/-- The unique ids of a matched cell list. -/
def pairIds (l : List (CellOutputEx × List Nat)) : List (List Nat) :=
  l.map Prod.snd

/-- Bool test: a spore transfer action with the given unique id. -/
def isTransferSporeWith (x : List Nat) : SporeAction → Bool
  | .transferSpore _ _ _ sporeId => sporeId = x
  | _ => false

/-- Bool test: a spore burn action with the given unique id. -/
def isBurnSporeWith (x : List Nat) : SporeAction → Bool
  | .burnSpore _ _ sporeId => sporeId = x
  | _ => false

/-- Bool test: a spore mint action with the given unique id. -/
def isMintSporeWith (x : List Nat) : SporeAction → Bool
  | .mintSpore _ _ sporeId _ => sporeId = x
  | _ => false

/-- The mature deposit cells of a DAO phase-one search: those whose
deposit block header passes the timestamp gate. -/
def daoMature (headerByNumber : Nat → Option Header)
    (upperboundTimestamp : Nat) (cells : List IndexerCell) :
    List IndexerCell :=
  cells.filter (fun c =>
    checkDepositTimestamp headerByNumber upperboundTimestamp c.blockNumber)

/-- The input a DAO phase-one cell becomes. -/
def daoInput (c : IndexerCell) : CellInputEx :=
  CellInputEx.newFromIndexerCell c none

/-- The deposit header dep of a DAO phase-one cell (meaningful under the
hypothesis that the gateway lookup succeeds). -/
def daoHeaderOf (headerByOutPoint : OutPoint → Option HeaderDepEx)
    (c : IndexerCell) : HeaderDepEx :=
  (headerByOutPoint c.outPoint).getD ⟨[], ⟨0, 0, []⟩⟩

/-- The withdraw output paired with a DAO phase-one cell: same capacity
and type script, data = the deposit block number in little-endian. -/
def daoWithdrawOutput (headerByOutPoint : OutPoint → Option HeaderDepEx)
    (transferLock : Option Script) (c : IndexerCell) : CellOutputEx :=
  CellOutputEx.newFromScripts (transferLock.getD c.output.lock)
    c.output.typ (leBytes 8 (daoHeaderOf headerByOutPoint c).header.number)
    (some c.output.capacity)

/-! ## Concrete fixtures used by witnesses and counterexamples -/

/-- A concrete lock script. -/
def wLock : Script := ⟨List.replicate 32 0, .data1, []⟩

/-- A concrete second lock script (differs from `wLock` in its args). -/
def wLockB : Script := ⟨List.replicate 32 0, .data1, [7]⟩

/-- A concrete input holding 100 CKB. -/
def wInA : CellInputEx :=
  ⟨⟨⟨List.replicate 32 1, 0⟩, 0⟩, ⟨⟨wLock, none, 10000000000⟩, []⟩, false⟩

/-- The same previous out-point as `wInA` but a different `since`. -/
def wInB : CellInputEx :=
  ⟨⟨⟨List.replicate 32 1, 0⟩, 1⟩, ⟨⟨wLock, none, 10000000000⟩, []⟩, false⟩

/-- A skeleton holding just the input `wInA`. -/
def wBalStart : TransactionSkeleton := ⟨[wInA], [], [], [], []⟩

/-- The result of balancing `wBalStart` at fee 0 towards `wLock`. -/
def wBalanced : TransactionSkeleton :=
  ⟨[wInA], [⟨⟨wLock, none, 10000000000⟩, []⟩], [], [], []⟩

/-- A skeleton holding just the input `wInB`. -/
def wBalStartB : TransactionSkeleton := ⟨[wInB], [], [], [], []⟩

/-- A concrete cell dependency named "dep-a" with known (empty) data and
no type script. -/
def wDepA : CellDepEx :=
  ⟨"dep-a", ⟨⟨List.replicate 32 2, 0⟩, .code⟩, ⟨⟨wLock, none, 0⟩, []⟩, true⟩

/-- A skeleton holding just the dependency `wDepA`. -/
def wDepSkel : TransactionSkeleton := ⟨[], [], [wDepA], [], []⟩

/-- A concrete indexer cell. -/
def wCell : IndexerCell :=
  ⟨⟨wLock, none, 100⟩, none, ⟨List.replicate 32 3, 0⟩, 1⟩

/-- A concrete gateway whose every page holds exactly `wCell` and advances
the cursor token to `[9]`. -/
def wGw : Option (List Nat) → Nat → CellsPage :=
  fun _ _ => ⟨[wCell], [9]⟩

/-- A concrete absolute-capacity `AddOutputCell` whose requested capacity
exactly equals the output's occupied capacity (41 CKB for an empty-args
lock and no data). -/
def wAbsOp : AddOutputCell :=
  ⟨ScriptEx.script (List.replicate 32 0) .data1 [], none, 4100000000, [],
    true, false⟩

/-- A concrete additional-capacity `AddOutputCell` requesting 7 shannons
above the minimum, with two data bytes. -/
def wAddOp : AddOutputCell :=
  ⟨ScriptEx.script (List.replicate 32 0) .data1 [], none, 7, [1, 2],
    false, false⟩

/-- The skeleton produced by running `wAddOp` on the empty skeleton. -/
def wAddRes : TransactionSkeleton :=
  ⟨[], [⟨⟨wLock, none, 4300000007⟩, [1, 2]⟩], [], [], []⟩

/-- Total declared capacity of a list of indexer cells. -/
def capSum (l : List IndexerCell) : Nat :=
  (l.map (fun c => c.output.capacity)).sum

/-- A concrete DAO deposit cell of capacity 100 created in block 5. -/
def wDaoCell : IndexerCell :=
  ⟨⟨wLock, none, 100⟩, some [0, 0, 0, 0, 0, 0, 0, 0],
    ⟨List.replicate 32 4, 0⟩, 5⟩

/-- A concrete header oracle: block 5 has timestamp 10. -/
def wHbn : Nat → Option Header :=
  fun n => if n = 5 then some ⟨5, 10, []⟩ else none

/-- The header dep for `wDaoCell`'s deposit block. -/
def wHd : HeaderDepEx := ⟨[], ⟨5, 10, []⟩⟩

/-- A concrete header-by-out-point oracle serving `wDaoCell`. -/
def wHbo : OutPoint → Option HeaderDepEx :=
  fun op => if op = wDaoCell.outPoint then some wHd else none

/-- The concrete DAO celldep served by the gateway. -/
def wDaoDep : CellDepEx :=
  ⟨"dao", ⟨⟨List.replicate 32 5, 2⟩, .code⟩, ⟨⟨wLock, none, 0⟩, []⟩, false⟩

/-- A phase-one request whose capacity target (50) is below `wDaoCell`'s
capacity, with `tolerate_empty` (throw = false). -/
def wDaoOp : AddDaoWithdrawPhaseOneCells :=
  ⟨50, 10, ScriptEx.script (List.replicate 32 0) .data1 [], none, false⟩

/-- A phase-one request with a large capacity target (1000) and
`throw_if_no_avaliable` set. -/
def wDaoOp2 : AddDaoWithdrawPhaseOneCells :=
  ⟨1000, 10, ScriptEx.script (List.replicate 32 0) .data1 [], none, true⟩

/-- A gateway serving exactly the cell `wInA` consumes. -/
def wRoundGw : GetLiveCell :=
  fun op _ =>
    if op = wInA.input.previousOutput then
      some (wInA.output.output, some wInA.output.data)
    else none

/-- The concrete spore contract code hash used in fixtures. -/
def wSporeHash : List Nat := List.replicate 32 9

/-- The concrete cluster contract code hash used in fixtures. -/
def wClusterHash : List Nat := List.replicate 32 8

/-- A spore type script carrying the unique id `replicate 32 1`. -/
def wSporeTs : Script := ⟨wSporeHash, .data1, List.replicate 32 1⟩

/-- A spore input cell owned by `wLock`. -/
def wSporeIn : CellInputEx :=
  ⟨⟨⟨List.replicate 32 6, 0⟩, 0⟩, ⟨⟨wLock, some wSporeTs, 200⟩, []⟩, true⟩

/-- A spore output cell with the same unique id but owned by `wLockB`. -/
def wSporeOut : CellOutputEx := ⟨⟨wLockB, some wSporeTs, 200⟩, []⟩

/-- A skeleton transferring one spore: same id in, same id out, locks
differ. -/
def wSporeSkel : TransactionSkeleton :=
  ⟨[wSporeIn], [wSporeOut], [], [], []⟩

/-! ## Theorems -/

theorem leBytes_length (k n : Nat) : (leBytes k n).length = k := by
  induction k generalizing n with
  | zero => rfl
  | succ k ih => simp [leBytes, ih]

theorem leBytes_inj {k a b : Nat} (ha : a < 256 ^ k) (hb : b < 256 ^ k)
    (h : leBytes k a = leBytes k b) : a = b := by
  induction k generalizing a b with
  | zero =>
    simp [Nat.pow_zero, Nat.lt_one_iff] at ha hb
    omega
  | succ k ih =>
    simp only [leBytes, List.cons.injEq] at h
    obtain ⟨hmod, hrest⟩ := h
    have ha' : a / 256 < 256 ^ k := by
      rw [Nat.div_lt_iff_lt_mul (by norm_num)]
      calc a < 256 ^ (k + 1) := ha
        _ = 256 ^ k * 256 := by ring
    have hb' : b / 256 < 256 ^ k := by
      rw [Nat.div_lt_iff_lt_mul (by norm_num)]
      calc b < 256 ^ (k + 1) := hb
        _ = 256 ^ k * 256 := by ring
    have := ih ha' hb' hrest
    omega

theorem balanceFinish_ok {fee : Nat} {t s' : TransactionSkeleton}
    (h : TransactionSkeleton.balanceFinish fee t = .ok s') :
    s'.exceededCapacity = fee := by
  unfold TransactionSkeleton.balanceFinish at h
  split at h
  · cases h; assumption
  · exact Except.noConfusion h

/-- C1: whenever `balance(gateway, fee, balancer, change_receiver)` returns
success, the resulting skeleton's `exceeded_capacity()` equals `fee`
exactly; and whenever the post-adjustment surplus differs from `fee`, the
final step of `balance` fails with `BalanceInvariantViolated` instead of
returning success. -/
theorem balance_exceeded_eq_fee :
    (∀ (blake : List Nat → List Nat) (scriptHash : Script → List Nat)
      (fee : Nat) (candidates : List CellInputEx) (cr : ChangeReceiver)
      (s s' : TransactionSkeleton),
      s.balance blake scriptHash fee candidates cr = .ok s' →
      s'.exceededCapacity = fee) ∧
    (∀ (fee : Nat) (t : TransactionSkeleton), t.exceededCapacity ≠ fee →
      TransactionSkeleton.balanceFinish fee t = .error .balanceInvariantViolated) := by
  constructor
  · intro blake scriptHash fee candidates cr s s' h
    unfold TransactionSkeleton.balance at h
    simp only [bind, Except.bind] at h
    split at h
    · split at h
      · exact Except.noConfusion h
      · split at h
        · exact Except.noConfusion h
        · exact balanceFinish_ok h
    · split at h
      · exact Except.noConfusion h
      · split at h
        · exact Except.noConfusion h
        · exact balanceFinish_ok h
    · split at h
      · exact Except.noConfusion h
      · split at h
        · exact Except.noConfusion h
        · exact balanceFinish_ok h
  · intro fee t h
    unfold TransactionSkeleton.balanceFinish
    simp [h]

/-- Witness for C1 at a concrete balance run and a concrete unbalanced
skeleton. -/
theorem balance_exceeded_eq_fee_witness :
    wBalanced.exceededCapacity = 0 ∧
    TransactionSkeleton.balanceFinish 5 wBalStart =
      .error .balanceInvariantViolated := by
  constructor
  · exact balance_exceeded_eq_fee.1 id (fun _ => []) 0 []
      (ChangeReceiver.script (ScriptEx.script (List.replicate 32 0) .data1 []))
      wBalStart wBalanced (by rfl)
  · exact balance_exceeded_eq_fee.2 5 wBalStart (by decide)

/-- C2 counterexample: the input `wInB` duplicates the previous out-point
of the already-present `wInA` (only `since` differs), yet pushing it
succeeds and extends the input list instead of failing with
`DuplicateInput` — input equality compares the full raw input bytes, not
the out-point alone. -/
theorem input_dup_outpoint_counterexample :
    wInA.input.previousOutput = wInB.input.previousOutput ∧
    wBalStart.input wInB = .ok ⟨[wInA, wInB], [], [], [], []⟩ := by
  exact ⟨rfl, by rfl⟩

/-- C2 (amended): pushing an input whose raw input bytes (previous
out-point and `since` together) duplicate those of an already-present
input fails with `DuplicateInput`, while pushing a cell dependency whose
raw cell-dep bytes duplicate an existing dependency succeeds silently and
leaves the dependency count unchanged. -/
theorem input_strict_celldep_lenient :
    (∀ (s : TransactionSkeleton) (ci : CellInputEx),
      (∃ x ∈ s.inputs, cellInputBytes x.input = cellInputBytes ci.input) →
      s.input ci = .error .duplicateInput) ∧
    (∀ (s : TransactionSkeleton) (cd : CellDepEx),
      (∃ x ∈ s.celldeps, cellDepBytes x.celldep = cellDepBytes cd.celldep) →
      s.celldep cd = s ∧ (s.celldep cd).celldeps.length = s.celldeps.length) := by
  constructor
  · rintro s ci ⟨x, hx, hb⟩
    have hc : s.containsInput ci = true := by
      unfold TransactionSkeleton.containsInput
      rw [List.any_eq_true]
      exact ⟨x, hx, by simp [cellInputExEq, hb]⟩
    unfold TransactionSkeleton.input
    simp [hc]
  · rintro s cd ⟨x, hx, hb⟩
    have hc : s.containsCelldep cd = true := by
      unfold TransactionSkeleton.containsCelldep
      rw [List.any_eq_true]
      exact ⟨x, hx, by simp [cellDepExEq, hb]⟩
    have he : s.celldep cd = s := by
      unfold TransactionSkeleton.celldep
      simp [hc]
    exact ⟨he, by rw [he]⟩

/-- Witness for C2 (amended) at a concrete duplicate input and a concrete
duplicate dependency. -/
theorem input_strict_celldep_lenient_witness :
    wBalStart.input wInA = .error .duplicateInput ∧
    wDepSkel.celldep wDepA = wDepSkel ∧
    (wDepSkel.celldep wDepA).celldeps.length = wDepSkel.celldeps.length := by
  refine ⟨?_, ?_⟩
  · exact input_strict_celldep_lenient.1 wBalStart wInA
      ⟨wInA, by decide, rfl⟩
  · have := input_strict_celldep_lenient.2 wDepSkel wDepA
      ⟨wDepA, by decide, rfl⟩
    exact ⟨this.1, this.2⟩

theorem cellInputBytes_append_inj {f₁ f₂ : CellInput} {i₁ i₂ : Nat}
    (hf₁ : wfInput f₁) (hf₂ : wfInput f₂) (hi₁ : i₁ < 2 ^ 64)
    (hi₂ : i₂ < 2 ^ 64)
    (h : cellInputBytes f₁ ++ leBytes 8 i₁ = cellInputBytes f₂ ++ leBytes 8 i₂) :
    f₁ = f₂ ∧ i₁ = i₂ := by
  have hpow64 : (256 : Nat) ^ 8 = 2 ^ 64 := by norm_num
  have hpow32 : (256 : Nat) ^ 4 = 2 ^ 32 := by norm_num
  obtain ⟨ht₁, hs₁, hx₁⟩ := hf₁
  obtain ⟨ht₂, hs₂, hx₂⟩ := hf₂
  have hlen : (cellInputBytes f₁).length = (cellInputBytes f₂).length := by
    simp [cellInputBytes, leBytes_length, ht₁, ht₂]
  obtain ⟨h1, h2⟩ := List.append_inj h hlen
  have hidx : i₁ = i₂ := by
    refine leBytes_inj ?_ ?_ h2 <;> rw [hpow64] <;> assumption
  unfold cellInputBytes at h1
  have hlen2 : (leBytes 8 f₁.since).length = (leBytes 8 f₂.since).length := by
    simp [leBytes_length]
  rw [List.append_assoc, List.append_assoc] at h1
  obtain ⟨hsince, h3⟩ := List.append_inj h1 hlen2
  have hsinceEq : f₁.since = f₂.since := by
    refine leBytes_inj ?_ ?_ hsince <;> rw [hpow64] <;> assumption
  obtain ⟨htx, h4⟩ := List.append_inj h3 (by rw [ht₁, ht₂])
  have hidxEq : f₁.previousOutput.index = f₂.previousOutput.index := by
    refine leBytes_inj ?_ ?_ h4 <;> rw [hpow32] <;> assumption
  refine ⟨?_, hidx⟩
  rcases f₁ with ⟨⟨t₁, x₁⟩, v₁⟩
  rcases f₂ with ⟨⟨t₂, x₂⟩, v₂⟩
  simp_all

/-- C4: `derive_unique_id(output_index)` (`calc_type_id`) equals the
blake2b hash (with the fixed personalization, modelled by the `blake`
parameter) of the first input's raw bytes concatenated with the
little-endian output index; it is determined by the (first input, index)
pair, differs whenever either component differs (for an injective hash
and well-formed inputs), and fails with `EmptyInputs` on a skeleton with
no inputs. -/
theorem calcTypeId_spec :
    (∀ (blake : List Nat → List Nat) (s : TransactionSkeleton) (i : Nat),
      s.inputs = [] → s.calcTypeId blake i = .error .emptyInputs) ∧
    (∀ (blake : List Nat → List Nat) (s : TransactionSkeleton) (i : Nat)
      (f : CellInputEx) (rest : List CellInputEx), s.inputs = f :: rest →
      s.calcTypeId blake i =
        .ok (blake (cellInputBytes f.input ++ leBytes 8 i))) ∧
    (∀ (blake : List Nat → List Nat) (s₁ s₂ : TransactionSkeleton)
      (i₁ i₂ : Nat) (f₁ f₂ : CellInputEx) (r₁ r₂ : List CellInputEx),
      Function.Injective blake →
      s₁.inputs = f₁ :: r₁ → s₂.inputs = f₂ :: r₂ →
      wfInput f₁.input → wfInput f₂.input →
      i₁ < 2 ^ 64 → i₂ < 2 ^ 64 →
      (f₁.input ≠ f₂.input ∨ i₁ ≠ i₂) →
      s₁.calcTypeId blake i₁ ≠ s₂.calcTypeId blake i₂) := by
  refine ⟨?_, ?_, ?_⟩
  · intro blake s i h
    unfold TransactionSkeleton.calcTypeId
    rw [h]
  · intro blake s i f rest h
    unfold TransactionSkeleton.calcTypeId
    rw [h]
  · intro blake s₁ s₂ i₁ i₂ f₁ f₂ r₁ r₂ hinj h₁ h₂ hw₁ hw₂ hi₁ hi₂ hne heq
    unfold TransactionSkeleton.calcTypeId at heq
    rw [h₁, h₂] at heq
    simp only [Except.ok.injEq] at heq
    have hpre := hinj heq
    obtain ⟨hf, hi⟩ :=
      cellInputBytes_append_inj hw₁ hw₂ hi₁ hi₂ hpre
    rcases hne with hne | hne
    · exact hne hf
    · exact hne hi

/-- Witness for C4: the empty skeleton fails with `EmptyInputs`; a
one-input skeleton hashes the expected preimage; skeletons whose first
inputs differ only in `since` derive different ids (with the injective
identity standing in for the hash). -/
theorem calcTypeId_spec_witness :
    TransactionSkeleton.empty.calcTypeId id 0 = .error .emptyInputs ∧
    wBalStart.calcTypeId id 0 =
      .ok (cellInputBytes wInA.input ++ leBytes 8 0) ∧
    wBalStart.calcTypeId id 0 ≠ wBalStartB.calcTypeId id 0 := by
  refine ⟨calcTypeId_spec.1 id TransactionSkeleton.empty 0 rfl, ?_, ?_⟩
  · exact calcTypeId_spec.2.1 id wBalStart 0 wInA [] rfl
  · exact calcTypeId_spec.2.2 id wBalStart wBalStartB 0 0 wInA wInB [] []
      Function.injective_id rfl rfl (by decide) (by decide) (by decide)
      (by decide) (Or.inl (by decide))

/-- C5: resolving a `Reference` script against a skeleton fails with
`ReferenceUnresolved` when no dependency carries the referenced name,
fails when the named dependency is a dep group, resolves to the
dependency's type-script hash (hash type `Type`) when it has a type
script, otherwise to its data hash (hash type `Data1`) when the data is
known, and fails when the data is unknown. -/
theorem toScript_reference_resolution :
    (∀ (blake : List Nat → List Nat) (scriptHash : Script → List Nat)
      (s : TransactionSkeleton) (name : String) (args : List Nat),
      s.findCelldepByScript name = none →
      (ScriptEx.reference name args).toScript blake scriptHash s =
        .error .referenceUnresolved) ∧
    (∀ (blake : List Nat → List Nat) (scriptHash : Script → List Nat)
      (s : TransactionSkeleton) (name : String) (args : List Nat)
      (d : CellDepEx),
      s.findCelldepByScript name = some d →
      d.celldep.depType = .depGroup →
      (ScriptEx.reference name args).toScript blake scriptHash s =
        .error .groupCelldepUnsupported) ∧
    (∀ (blake : List Nat → List Nat) (scriptHash : Script → List Nat)
      (s : TransactionSkeleton) (name : String) (args : List Nat)
      (d : CellDepEx) (t : Script),
      s.findCelldepByScript name = some d →
      d.celldep.depType ≠ .depGroup →
      d.output.output.typ = some t →
      (ScriptEx.reference name args).toScript blake scriptHash s =
        .ok ⟨scriptHash t, .typeId, args⟩) ∧
    (∀ (blake : List Nat → List Nat) (scriptHash : Script → List Nat)
      (s : TransactionSkeleton) (name : String) (args : List Nat)
      (d : CellDepEx),
      s.findCelldepByScript name = some d →
      d.celldep.depType ≠ .depGroup →
      d.output.output.typ = none → d.withData = true →
      (ScriptEx.reference name args).toScript blake scriptHash s =
        .ok ⟨blake d.output.data, .data1, args⟩) ∧
    (∀ (blake : List Nat → List Nat) (scriptHash : Script → List Nat)
      (s : TransactionSkeleton) (name : String) (args : List Nat)
      (d : CellDepEx),
      s.findCelldepByScript name = some d →
      d.celldep.depType ≠ .depGroup →
      d.output.output.typ = none → d.withData = false →
      (ScriptEx.reference name args).toScript blake scriptHash s =
        .error .celldepDataUnknown) := by
  refine ⟨?_, ?_, ?_, ?_, ?_⟩
  · intro blake scriptHash s name args h
    simp [ScriptEx.toScript, h]
  · intro blake scriptHash s name args d h hg
    simp [ScriptEx.toScript, h, hg]
  · intro blake scriptHash s name args d t h hg hty
    simp [ScriptEx.toScript, h, hg, CellOutputEx.calcTypeHash, hty]
  · intro blake scriptHash s name args d h hg hty hd
    simp [ScriptEx.toScript, h, hg, CellOutputEx.calcTypeHash, hty, hd,
      CellOutputEx.dataHash]
  · intro blake scriptHash s name args d h hg hty hd
    simp [ScriptEx.toScript, h, hg, CellOutputEx.calcTypeHash, hty, hd]

/-- Witness for C5, realizing the claim's concrete scenario: the reference
"dep-a" fails to resolve against the empty skeleton and resolves
immediately after a dependency named "dep-a" (with known data and no type
script) is present. -/
theorem toScript_reference_resolution_witness :
    (ScriptEx.reference "dep-a" [5]).toScript id (fun _ => [])
      TransactionSkeleton.empty = .error .referenceUnresolved ∧
    (ScriptEx.reference "dep-a" [5]).toScript id (fun _ => []) wDepSkel =
      .ok ⟨[], .data1, [5]⟩ := by
  constructor
  · exact toScript_reference_resolution.1 id (fun _ => [])
      TransactionSkeleton.empty "dep-a" [5] (by decide)
  · exact toScript_reference_resolution.2.2.2.1 id (fun _ => []) wDepSkel
      "dep-a" [5] wDepA (by decide) (by decide) rfl rfl

/-- C7 counterexample: the gateway returns a non-empty page, yet with a
client-side filter that rejects every cell `next_batch` reports
"exhausted" (`none`) and leaves the stored cursor unchanged — it neither
returns the page's cells nor advances the cursor. -/
theorem nextBatch_filtered_page_counterexample :
    (wGw GetCellsIter.new.cursor 1).objects ≠ [] ∧
    GetCellsIter.nextBatch wGw (some (fun _ => false)) 1 GetCellsIter.new =
      (none, GetCellsIter.new) := by
  exact ⟨by decide, rfl⟩

/-- C7 (amended): `next_batch` returns "exhausted" (`none`) without moving
the cursor when the gateway's page is empty, and more generally whenever
the client-side-filtered page is empty; when the filtered page is
non-empty it returns exactly those cells and advances the stored cursor
to the page's `last_cursor`. -/
theorem nextBatch_spec :
    (∀ (gw : Option (List Nat) → Nat → CellsPage)
      (filter : Option (IndexerCell → Bool)) (limit : Nat)
      (it : GetCellsIter),
      (gw it.cursor limit).objects = [] →
      GetCellsIter.nextBatch gw filter limit it = (none, it)) ∧
    (∀ (gw : Option (List Nat) → Nat → CellsPage)
      (filter : Option (IndexerCell → Bool)) (limit : Nat)
      (it : GetCellsIter),
      filteredObjects filter (gw it.cursor limit).objects = [] →
      GetCellsIter.nextBatch gw filter limit it = (none, it)) ∧
    (∀ (gw : Option (List Nat) → Nat → CellsPage)
      (filter : Option (IndexerCell → Bool)) (limit : Nat)
      (it : GetCellsIter),
      filteredObjects filter (gw it.cursor limit).objects ≠ [] →
      GetCellsIter.nextBatch gw filter limit it =
        (some (filteredObjects filter (gw it.cursor limit).objects),
          ⟨some (gw it.cursor limit).lastCursor⟩)) := by
  refine ⟨?_, ?_, ?_⟩
  · intro gw filter limit it h
    have hf : filteredObjects filter (gw it.cursor limit).objects = [] := by
      cases filter <;> simp [filteredObjects, h]
    simp [GetCellsIter.nextBatch, hf]
  · intro gw filter limit it h
    simp [GetCellsIter.nextBatch, h]
  · intro gw filter limit it h
    simp [GetCellsIter.nextBatch, List.isEmpty_iff, h]

/-- Witness for C7 (amended): an empty-page gateway is reported exhausted;
a non-empty unfiltered page is returned with the cursor advanced. -/
theorem nextBatch_spec_witness :
    GetCellsIter.nextBatch (fun _ _ => ⟨[], [42]⟩) none 1 GetCellsIter.new =
      (none, GetCellsIter.new) ∧
    GetCellsIter.nextBatch wGw none 1 GetCellsIter.new =
      (some [wCell], ⟨some [9]⟩) := by
  constructor
  · exact nextBatch_spec.1 (fun _ _ => ⟨[], [42]⟩) none 1 GetCellsIter.new rfl
  · exact nextBatch_spec.2.2 wGw none 1 GetCellsIter.new (by decide)

theorem occupiedCapacity_mk (lock : Script) (typ : Option Script)
    (c : Nat) (data : List Nat) :
    CellOutputEx.occupiedCapacity ⟨⟨lock, typ, c⟩, data⟩ =
      exactCapacity lock typ data.length := rfl

/-- C3 counterexample: an absolute-capacity request exactly equal to the
occupied capacity is NOT below it, yet `AddOutputCell::run` fails with
`CapacityTooSmall` — the source requires the request to strictly exceed
the minimum. -/
theorem addOutputCell_boundary_counterexample :
    exactCapacity wLock none 0 ≤ wAbsOp.capacity ∧
    wAbsOp.run id (fun _ => []) TransactionSkeleton.empty =
      .error .capacityTooSmall := by
  exact ⟨by decide, rfl⟩

/-- C3 (amended): every output appended by `AddOutputCell` has declared
capacity ≥ its occupied capacity; in additional mode the declared capacity
is exactly occupied + requested; in absolute mode the run fails with
`CapacityTooSmall` whenever the requested capacity is ≤ the occupied
capacity (boundary included) and otherwise uses the requested capacity. -/
theorem addOutputCell_capacity :
    (∀ (blake : List Nat → List Nat) (scriptHash : Script → List Nat)
      (op : AddOutputCell) (s s' : TransactionSkeleton),
      op.run blake scriptHash s = .ok s' →
      ∃ out : CellOutputEx, s'.outputs = s.outputs ++ [out] ∧
        out.data = op.data ∧
        out.occupiedCapacity ≤ out.output.capacity ∧
        (op.absoluteCapacity = false →
          out.output.capacity = out.occupiedCapacity + op.capacity) ∧
        (op.absoluteCapacity = true →
          out.output.capacity = op.capacity ∧
            out.occupiedCapacity < op.capacity)) ∧
    (∀ (blake : List Nat → List Nat) (scriptHash : Script → List Nat)
      (op : AddOutputCell) (s : TransactionSkeleton)
      (ts : Option Script) (lock : Script),
      op.resolveTypeScript blake scriptHash s = .ok ts →
      op.lockScript.toScript blake scriptHash s = .ok lock →
      op.absoluteCapacity = true →
      op.capacity ≤ exactCapacity lock ts op.data.length →
      op.run blake scriptHash s = .error .capacityTooSmall) := by
  constructor
  · intro blake scriptHash op s s' h
    unfold AddOutputCell.run at h
    simp only [bind, Except.bind] at h
    split at h
    · exact Except.noConfusion h
    · rename_i ts hts
      split at h
      · exact Except.noConfusion h
      · rename_i lock hlock
        split at h
        · rename_i habs
          have habs' : op.absoluteCapacity = false := by
            revert habs; cases op.absoluteCapacity <;> simp
          simp only [Except.ok.injEq] at h
          subst h
          refine ⟨⟨⟨lock, ts, exactCapacity lock ts op.data.length +
            op.capacity⟩, op.data⟩, rfl, rfl, ?_, ?_, ?_⟩
          · rw [occupiedCapacity_mk]
            exact Nat.le_add_right _ _
          · intro
            rw [occupiedCapacity_mk]
          · intro hcontra
            rw [habs'] at hcontra
            exact Bool.noConfusion hcontra
        · split at h
          · rename_i habs hlt
            have habs' : op.absoluteCapacity = true := by
              revert habs; cases op.absoluteCapacity <;> simp
            simp only [Except.ok.injEq] at h
            subst h
            refine ⟨⟨⟨lock, ts, op.capacity⟩, op.data⟩, rfl, rfl, ?_, ?_, ?_⟩
            · rw [occupiedCapacity_mk]
              exact Nat.le_of_lt hlt
            · intro hcontra
              rw [habs'] at hcontra
              exact Bool.noConfusion hcontra
            · intro
              rw [occupiedCapacity_mk]
              exact ⟨rfl, hlt⟩
          · exact Except.noConfusion h
  · intro blake scriptHash op s ts lock hts hlock habs hle
    unfold AddOutputCell.run
    simp only [bind, Except.bind]
    rw [hts, hlock, habs]
    simp [Nat.not_lt_of_le hle]

/-- Witness for C3 (amended) at a concrete additional-mode run and the
concrete boundary absolute-mode failure. -/
theorem addOutputCell_capacity_witness :
    (∃ out : CellOutputEx,
      wAddRes.outputs = TransactionSkeleton.empty.outputs ++ [out] ∧
      out.data = wAddOp.data ∧
      out.occupiedCapacity ≤ out.output.capacity ∧
      (wAddOp.absoluteCapacity = false →
        out.output.capacity = out.occupiedCapacity + wAddOp.capacity) ∧
      (wAddOp.absoluteCapacity = true →
        out.output.capacity = wAddOp.capacity ∧
          out.occupiedCapacity < wAddOp.capacity)) ∧
    wAbsOp.run id (fun _ => []) TransactionSkeleton.empty =
      .error .capacityTooSmall := by
  constructor
  · exact addOutputCell_capacity.1 id (fun _ => []) wAddOp
      TransactionSkeleton.empty wAddRes (by rfl)
  · exact addOutputCell_capacity.2 id (fun _ => []) wAbsOp
      TransactionSkeleton.empty none wLock (by rfl) (by rfl) rfl (by decide)

theorem getElem?_concat_len {α : Type} (l : List α) (a : α) :
    (l ++ [a])[l.length]? = some a := by
  induction l with
  | nil => rfl
  | cons x xs ih => simp [ih]

theorem set_concat_len {α : Type} (l : List α) (a b : α) :
    (l ++ [a]).set l.length b = l ++ [b] := by
  induction l with
  | nil => rfl
  | cons x xs ih => simp [ih]

theorem balanceFinish_ok_eq {fee : Nat} {t s' : TransactionSkeleton}
    (h : TransactionSkeleton.balanceFinish fee t = .ok s') : s' = t := by
  unfold TransactionSkeleton.balanceFinish at h
  split at h
  · cases h; rfl
  · exact Except.noConfusion h

theorem outputFromScript_ok {blake : List Nat → List Nat}
    {scriptHash : Script → List Nat} {s : TransactionSkeleton}
    {lockScript : ScriptEx} {data : List Nat} {v : TransactionSkeleton}
    (h : s.outputFromScript blake scriptHash lockScript data = .ok v) :
    ∃ lk, v = s.output ⟨⟨lk, none, exactCapacity lk none 0⟩, data⟩ := by
  unfold TransactionSkeleton.outputFromScript at h
  simp only [bind, Except.bind] at h
  split at h
  · exact Except.noConfusion h
  · rename_i lk hlk
    simp only [Except.ok.injEq] at h
    exact ⟨lk, h.symm⟩

theorem balanceLoop_frame (fee : Nat) :
    ∀ (cands : List CellInputEx) (s s' : TransactionSkeleton),
    TransactionSkeleton.balanceLoop fee cands s = .ok s' →
    (∃ new, s'.inputs = s.inputs ++ new ∧ ∀ c ∈ new, c ∈ cands) ∧
    s'.outputs = s.outputs ∧ s'.celldeps = s.celldeps ∧
    s'.headerdeps = s.headerdeps ∧ s'.witnesses = s.witnesses := by
  intro cands
  induction cands with
  | nil =>
    intro s s' h
    unfold TransactionSkeleton.balanceLoop at h
    split at h
    · cases h
      exact ⟨⟨[], by simp, by simp⟩, rfl, rfl, rfl, rfl⟩
    · exact Except.noConfusion h
  | cons c rest ih =>
    intro s s' h
    unfold TransactionSkeleton.balanceLoop at h
    split at h
    · cases h
      exact ⟨⟨[], by simp, by simp⟩, rfl, rfl, rfl, rfl⟩
    · split at h
      · obtain ⟨⟨new, hn, hm⟩, ho, hc, hh, hw⟩ := ih s s' h
        exact ⟨⟨new, hn, fun x hx => List.mem_cons_of_mem c (hm x hx)⟩,
          ho, hc, hh, hw⟩
      · obtain ⟨⟨new, hn, hm⟩, ho, hc, hh, hw⟩ :=
          ih { s with inputs := s.inputs ++ [c] } s' h
        refine ⟨⟨c :: new, ?_, ?_⟩, ho, hc, hh, hw⟩
        · simpa using hn
        · intro x hx
          rcases List.mem_cons.mp hx with hx | hx
          · exact hx ▸ List.mem_cons_self c rest
          · exact List.mem_cons_of_mem c (hm x hx)

theorem bumpOutputCapacity_frame (s : TransactionSkeleton) (i d : Nat) :
    (s.bumpOutputCapacity i d).inputs = s.inputs ∧
    (s.bumpOutputCapacity i d).celldeps = s.celldeps ∧
    (s.bumpOutputCapacity i d).headerdeps = s.headerdeps ∧
    (s.bumpOutputCapacity i d).witnesses = s.witnesses := by
  unfold TransactionSkeleton.bumpOutputCapacity
  split <;> exact ⟨rfl, rfl, rfl, rfl⟩

theorem bumpOutputCapacity_outputs {s : TransactionSkeleton} {i : Nat}
    {o : CellOutputEx} (d : Nat) (h : s.outputs[i]? = some o) :
    (s.bumpOutputCapacity i d).outputs =
      s.outputs.set i ⟨⟨o.output.lock, o.output.typ,
        o.output.capacity + d⟩, o.data⟩ := by
  unfold TransactionSkeleton.bumpOutputCapacity
  rw [h]

/-- C10: a successful `balance` only (i) appends the newly pulled
balancer-owned cells at the end of the input list, (ii) either appends one
fresh change output at the end (address/script receiver) or raises the
declared capacity of the designated existing output (index receiver), and
leaves every cell dep, header dep and witness untouched — in particular
`balance` performs no witness padding; the padding to input count happens
afterwards in `BalanceTransaction::run`. -/
theorem balance_frame :
    (∀ (blake : List Nat → List Nat) (scriptHash : Script → List Nat)
      (fee : Nat) (cands : List CellInputEx) (cr : ChangeReceiver)
      (s s' : TransactionSkeleton),
      s.balance blake scriptHash fee cands cr = .ok s' →
      (∃ new, s'.inputs = s.inputs ++ new ∧ ∀ c ∈ new, c ∈ cands) ∧
      s'.celldeps = s.celldeps ∧ s'.headerdeps = s.headerdeps ∧
      s'.witnesses = s.witnesses ∧
      (match cr with
       | .output i => ∃ o delta, s.outputs[i]? = some o ∧
           s'.outputs = s.outputs.set i
             ⟨⟨o.output.lock, o.output.typ, o.output.capacity + delta⟩,
               o.data⟩
       | _ => ∃ lk delta, s'.outputs =
           s.outputs ++ [⟨⟨lk, none, exactCapacity lk none 0 + delta⟩, []⟩])) ∧
    (∀ (blake : List Nat → List Nat) (scriptHash : Script → List Nat)
      (fee : Nat) (cands : List CellInputEx) (cr : ChangeReceiver)
      (s s' : TransactionSkeleton),
      BalanceTransaction.run blake scriptHash fee cands cr s = .ok s' →
      ∃ s'', s.balance blake scriptHash fee cands cr = .ok s'' ∧
        s' = padWitnesses s'' ∧
        s'.witnesses = s''.witnesses ++ List.replicate
          (s''.inputs.length - s''.witnesses.length) WitnessEx.default) := by
  constructor
  · intro blake scriptHash fee cands cr s s' h
    unfold TransactionSkeleton.balance at h
    simp only [bind, Except.bind] at h
    split at h
    · rename_i changer
      split at h
      · exact Except.noConfusion h
      · rename_i v heq
        cases hOFS : s.outputFromScript blake scriptHash
            (ScriptEx.script changer.codeHash changer.hashType changer.args)
            [] with
        | error e => rw [hOFS] at heq; exact Except.noConfusion heq
        | ok v0 =>
          rw [hOFS] at heq
          simp only [Except.ok.injEq] at heq
          subst heq
          obtain ⟨lk, hv0⟩ := outputFromScript_ok hOFS
          subst hv0
          split at h
          · exact Except.noConfusion h
          · rename_i s2 hloop
            have hs' := balanceFinish_ok_eq h
            subst hs'
            obtain ⟨⟨new, hn, hm⟩, ho2, hc2, hh2, hw2⟩ :=
              balanceLoop_frame fee cands _ s2 hloop
            obtain ⟨hbi, hbc, hbh, hbw⟩ := bumpOutputCapacity_frame s2
              ((s.output ⟨⟨lk, none, exactCapacity lk none 0⟩, []⟩).outputs.length - 1)
              (s2.exceededCapacity - fee)
            have hidx : (s.output
                ⟨⟨lk, none, exactCapacity lk none 0⟩, []⟩).outputs.length - 1 =
                s.outputs.length := by
              simp [TransactionSkeleton.output]
            have hsome : s2.outputs[s.outputs.length]? =
                some ⟨⟨lk, none, exactCapacity lk none 0⟩, []⟩ := by
              rw [ho2]
              exact getElem?_concat_len s.outputs _
            refine ⟨⟨new, ?_, hm⟩, ?_, ?_, ?_, ?_⟩
            · rw [hbi, hn]; rfl
            · rw [hbc, hc2]; rfl
            · rw [hbh, hh2]; rfl
            · rw [hbw, hw2]; rfl
            · refine ⟨lk, s2.exceededCapacity - fee, ?_⟩
              rw [hidx, bumpOutputCapacity_outputs _ hsome, ho2]
              simp [TransactionSkeleton.output, set_concat_len]
    · rename_i changer
      split at h
      · exact Except.noConfusion h
      · rename_i v heq
        cases hOFS : s.outputFromScript blake scriptHash changer [] with
        | error e => rw [hOFS] at heq; exact Except.noConfusion heq
        | ok v0 =>
          rw [hOFS] at heq
          simp only [Except.ok.injEq] at heq
          subst heq
          obtain ⟨lk, hv0⟩ := outputFromScript_ok hOFS
          subst hv0
          split at h
          · exact Except.noConfusion h
          · rename_i s2 hloop
            have hs' := balanceFinish_ok_eq h
            subst hs'
            obtain ⟨⟨new, hn, hm⟩, ho2, hc2, hh2, hw2⟩ :=
              balanceLoop_frame fee cands _ s2 hloop
            obtain ⟨hbi, hbc, hbh, hbw⟩ := bumpOutputCapacity_frame s2
              ((s.output ⟨⟨lk, none, exactCapacity lk none 0⟩, []⟩).outputs.length - 1)
              (s2.exceededCapacity - fee)
            have hidx : (s.output
                ⟨⟨lk, none, exactCapacity lk none 0⟩, []⟩).outputs.length - 1 =
                s.outputs.length := by
              simp [TransactionSkeleton.output]
            have hsome : s2.outputs[s.outputs.length]? =
                some ⟨⟨lk, none, exactCapacity lk none 0⟩, []⟩ := by
              rw [ho2]
              exact getElem?_concat_len s.outputs _
            refine ⟨⟨new, ?_, hm⟩, ?_, ?_, ?_, ?_⟩
            · rw [hbi, hn]; rfl
            · rw [hbc, hc2]; rfl
            · rw [hbh, hh2]; rfl
            · rw [hbw, hw2]; rfl
            · refine ⟨lk, s2.exceededCapacity - fee, ?_⟩
              rw [hidx, bumpOutputCapacity_outputs _ hsome, ho2]
              simp [TransactionSkeleton.output, set_concat_len]
    · rename_i index
      split at h
      · exact Except.noConfusion h
      · rename_i hlen
        split at h
        · exact Except.noConfusion h
        · rename_i s2 hloop
          have hs' := balanceFinish_ok_eq h
          subst hs'
          obtain ⟨⟨new, hn, hm⟩, ho2, hc2, hh2, hw2⟩ :=
            balanceLoop_frame fee cands _ s2 hloop
          obtain ⟨hbi, hbc, hbh, hbw⟩ := bumpOutputCapacity_frame s2 index
            (s2.exceededCapacity - fee)
          have hlt : index < s.outputs.length := Nat.lt_of_not_le hlen
          have hsome0 : s.outputs[index]? = some s.outputs[index] :=
            List.getElem?_eq_getElem hlt
          have hsome : s2.outputs[index]? = some s.outputs[index] := by
            rw [ho2]; exact hsome0
          refine ⟨⟨new, by rw [hbi, hn], hm⟩, by rw [hbc, hc2],
            by rw [hbh, hh2], by rw [hbw, hw2], ?_⟩
          exact ⟨s.outputs[index], s2.exceededCapacity - fee, hsome0,
            by rw [bumpOutputCapacity_outputs _ hsome, ho2]⟩
  · intro blake scriptHash fee cands cr s s' h
    unfold BalanceTransaction.run at h
    simp only [bind, Except.bind] at h
    split at h
    · exact Except.noConfusion h
    · rename_i s2 hbal
      simp only [Except.ok.injEq] at h
      subst h
      exact ⟨s2, hbal, rfl, rfl⟩

/-- Witness for C10 at the concrete fixture balance run. -/
theorem balance_frame_witness :
    ((∃ new, wBalanced.inputs = wBalStart.inputs ++ new ∧
        ∀ c ∈ new, c ∈ ([] : List CellInputEx)) ∧
      wBalanced.celldeps = wBalStart.celldeps ∧
      wBalanced.headerdeps = wBalStart.headerdeps ∧
      wBalanced.witnesses = wBalStart.witnesses ∧
      ∃ lk delta, wBalanced.outputs = wBalStart.outputs ++
        [⟨⟨lk, none, exactCapacity lk none 0 + delta⟩, []⟩]) ∧
    ∃ s'', wBalStart.balance id (fun _ => []) 0 []
        (ChangeReceiver.script
          (ScriptEx.script (List.replicate 32 0) .data1 [])) = .ok s'' ∧
      padWitnesses wBalanced = padWitnesses s'' := by
  constructor
  · have := balance_frame.1 id (fun _ => []) 0 []
      (ChangeReceiver.script (ScriptEx.script (List.replicate 32 0) .data1 []))
      wBalStart wBalanced (by rfl)
    exact ⟨this.1, this.2.1, this.2.2.1, this.2.2.2.1, this.2.2.2.2⟩
  · have := balance_frame.2 id (fun _ => []) 0 []
      (ChangeReceiver.script (ScriptEx.script (List.replicate 32 0) .data1 []))
      wBalStart (padWitnesses wBalanced) (by rfl)
    obtain ⟨s'', hbal, heq, _⟩ := this
    exact ⟨s'', hbal, by rw [heq]⟩

theorem readField_fieldBytes (b r : List Nat) :
    readField (fieldBytes b ++ r) = some (b, r) := by
  simp [readField, fieldBytes, List.length_append, Nat.le_add_right]

theorem witnessArgsFromSlice_bytes (lock inputType outputType : List Nat) :
    witnessArgsFromSlice (witnessArgsBytes lock inputType outputType) =
      some (lock, inputType, outputType) := by
  have h3 : readField (fieldBytes outputType) =
      some (outputType, []) := by
    simpa using readField_fieldBytes outputType []
  simp [witnessArgsFromSlice, witnessArgsBytes, List.append_assoc,
    readField_fieldBytes, h3, Option.bind]

theorem intoPackedBytes_traditional {w : WitnessEx} (he : w.empty = false)
    (ht : w.traditional = true) :
    w.intoPackedBytes = witnessArgsBytes w.lock w.inputType w.outputType := by
  unfold WitnessEx.intoPackedBytes
  rw [he, ht]
  simp

theorem mapM_ok_of_forall {α β : Type} (f : α → Except Err β) (g : α → β) :
    ∀ (l : List α), (∀ a ∈ l, f a = .ok (g a)) →
    l.mapM f = .ok (l.map g) := by
  intro l
  induction l with
  | nil => intro _; rfl
  | cons x xs ih =>
    intro h
    rw [List.mapM_cons, h x (List.mem_cons_self x xs),
      ih (fun a ha => h a (List.mem_cons_of_mem x ha))]
    rfl

theorem mapM_ok_of_exists {α β : Type} (f : α → Except Err β) :
    ∀ (l : List α), (∀ a ∈ l, ∃ b, f a = .ok b) →
    ∃ bs, l.mapM f = .ok bs := by
  intro l
  induction l with
  | nil => intro _; exact ⟨[], rfl⟩
  | cons x xs ih =>
    intro h
    obtain ⟨b, hb⟩ := h x (List.mem_cons_self x xs)
    obtain ⟨bs, hbs⟩ := ih (fun a ha => h a (List.mem_cons_of_mem x ha))
    refine ⟨b :: bs, ?_⟩
    rw [List.mapM_cons, hb, hbs]
    rfl

theorem updateInputs_roundtrip (g : GetLiveCell)
    (outs : List (CellOutput × List Nat)) (deps : List CellDep)
    (wits : List (List Nat)) :
    ∀ (l : List CellInputEx),
    (∀ i ∈ l, g i.input.previousOutput true =
      some (i.output.output, some i.output.data)) →
    updateInputsFromTransactionView g
      ⟨l.map (fun v => v.input), outs, deps, wits⟩ =
      .ok (l.map (fun i => ⟨i.input, i.output, true⟩)) := by
  intro l
  induction l with
  | nil => intro _; rfl
  | cons x xs ih =>
    intro h
    have hx := h x (List.mem_cons_self x xs)
    have hx' : CellInputEx.newFromOutpoint g x.input.previousOutput
        (some x.input.since) true = .ok ⟨x.input, x.output, true⟩ := by
      simp [CellInputEx.newFromOutpoint, hx, CellInputEx.new]
    unfold updateInputsFromTransactionView at ih ⊢
    simp only [List.map_cons, List.mapM_cons]
    rw [hx', ih (fun a ha => h a (List.mem_cons_of_mem x ha))]
    rfl

theorem updateWitnesses_roundtrip (ins : List CellInput)
    (outs : List (CellOutput × List Nat)) (deps : List CellDep) :
    ∀ (l : List WitnessEx),
    (∀ w ∈ l, w.empty = false ∧ w.traditional = true) →
    updateWitnessesFromTransactionView
      ⟨ins, outs, deps, l.map WitnessEx.intoPackedBytes⟩ = .ok l := by
  intro l
  induction l with
  | nil => intro _; rfl
  | cons x xs ih =>
    intro h
    obtain ⟨he, ht⟩ := h x (List.mem_cons_self x xs)
    have hx : x.intoPackedBytes =
        witnessArgsBytes x.lock x.inputType x.outputType :=
      intoPackedBytes_traditional he ht
    have hx' : (match witnessArgsFromSlice x.intoPackedBytes with
        | none => (.error .invalidWitnessArgs : Except Err WitnessEx)
        | some (lock, inputType, outputType) =>
          .ok (WitnessEx.new lock inputType outputType)) = .ok x := by
      rw [hx, witnessArgsFromSlice_bytes]
      rcases x with ⟨xe, xt, xl, xi, xo⟩
      simp only at he ht
      subst he ht
      rfl
    unfold updateWitnessesFromTransactionView at ih ⊢
    simp only [List.map_cons, List.mapM_cons]
    rw [hx', ih (fun a ha => h a (List.mem_cons_of_mem x ha))]
    rfl

theorem updateCelldeps_ok (g : GetLiveCell) (ins : List CellInput)
    (outs : List (CellOutput × List Nat)) (wits : List (List Nat))
    (deps : List CellDep)
    (h : ∀ d ∈ deps, (g d.outPoint false).isSome) :
    ∃ ds, updateCelldepsFromTransactionView g ⟨ins, outs, deps, wits⟩ =
      .ok ds := by
  unfold updateCelldepsFromTransactionView
  refine mapM_ok_of_exists _ _ ?_
  rintro ⟨i, d⟩ hmem
  have hd : d ∈ deps := by
    obtain ⟨-, hlt, heq⟩ := List.mem_enumFrom hmem
    simp only [Nat.sub_zero] at heq hlt
    exact heq ▸ List.getElem_mem (by simpa using hlt)
  have := h d hd
  rcases hg : g d.outPoint false with _ | ⟨out, dta⟩
  · rw [hg] at this; exact absurd this (by simp)
  · refine ⟨CellDepEx.new (toString "unknown-" ++ toString i ++ toString "")
      ⟨d.outPoint, d.depType⟩ out dta, ?_⟩
    simp [CellDepEx.newFromOutpoint, hg]

/-- C6 counterexample: a concrete-script skeleton containing one empty
(default) witness does not survive the wire round trip: the empty witness
serializes to zero bytes, which `from_wire` rejects as invalid witness
args — even though the gateway serves exactly the cell the skeleton
consumes. -/
theorem roundTrip_empty_witness_counterexample :
    TransactionSkeleton.newFromTransactionView wRoundGw
      (TransactionSkeleton.intoTransactionView
        ⟨[wInA], [], [], [], [WitnessEx.default]⟩) =
      .error .invalidWitnessArgs := by rfl

/-- C6 (amended): for every skeleton built from concrete scripts whose
witnesses are all non-empty traditional witnesses, rebuilding from the
wire transaction (with the gateway returning the consumed cells)
reproduces the inputs (same raw input, same consumed output, data-known
flag normalized to true), the outputs, and the witnesses exactly;
skeletons containing an empty witness fail instead (see the
counterexample). -/
theorem roundTrip_traditional :
    ∀ (g : GetLiveCell) (s : TransactionSkeleton),
    (∀ w ∈ s.witnesses, w.empty = false ∧ w.traditional = true) →
    (∀ i ∈ s.inputs, g i.input.previousOutput true =
      some (i.output.output, some i.output.data)) →
    (∀ d ∈ s.celldeps, (g d.celldep.outPoint false).isSome) →
    ∃ s', TransactionSkeleton.newFromTransactionView g
        s.intoTransactionView = .ok s' ∧
      s'.inputs = s.inputs.map (fun i => ⟨i.input, i.output, true⟩) ∧
      s'.outputs = s.outputs ∧
      s'.witnesses = s.witnesses := by
  intro g s hw hg hd
  have hview : s.intoTransactionView =
      ⟨s.inputs.map (fun v => v.input),
        s.outputs.map (fun v => (v.output, v.data)),
        s.celldeps.map (fun v => v.celldep),
        s.witnesses.map WitnessEx.intoPackedBytes⟩ := rfl
  have hin := updateInputs_roundtrip g
    (s.outputs.map (fun v => (v.output, v.data)))
    (s.celldeps.map (fun v => v.celldep))
    (s.witnesses.map WitnessEx.intoPackedBytes) s.inputs hg
  have hdeps : ∀ d ∈ s.celldeps.map (fun v => v.celldep),
      (g d.outPoint false).isSome := by
    intro d hdm
    obtain ⟨dep, hdep, hde⟩ := List.mem_map.mp hdm
    exact hde ▸ hd dep hdep
  obtain ⟨ds, hds⟩ := updateCelldeps_ok g
    (s.inputs.map (fun v => v.input))
    (s.outputs.map (fun v => (v.output, v.data)))
    (s.witnesses.map WitnessEx.intoPackedBytes)
    (s.celldeps.map (fun v => v.celldep)) hdeps
  have hwit := updateWitnesses_roundtrip
    (s.inputs.map (fun v => v.input))
    (s.outputs.map (fun v => (v.output, v.data)))
    (s.celldeps.map (fun v => v.celldep)) s.witnesses hw
  have hout : (s.outputs.map (fun v => (v.output, v.data))).map
      (fun p => (⟨p.1, p.2⟩ : CellOutputEx)) = s.outputs := by
    rw [List.map_map]
    have hfun : ((fun p : CellOutput × List Nat =>
        (⟨p.1, p.2⟩ : CellOutputEx)) ∘
        (fun v : CellOutputEx => (v.output, v.data))) = id :=
      funext fun v => rfl
    rw [hfun, List.map_id]
  refine ⟨⟨s.inputs.map (fun i => ⟨i.input, i.output, true⟩),
    s.outputs, ds, [], s.witnesses⟩, ?_, rfl, rfl, rfl⟩
  unfold TransactionSkeleton.newFromTransactionView
  rw [hview]
  simp only [bind, Except.bind]
  rw [hin, hds, hwit]
  simp only [Except.ok.injEq]
  rw [hout]

/-- Witness for C6 (amended) at a concrete one-input skeleton with a
non-empty traditional witness. -/
theorem roundTrip_traditional_witness :
    ∃ s', TransactionSkeleton.newFromTransactionView wRoundGw
        (TransactionSkeleton.intoTransactionView
          ⟨[wInA], [⟨⟨wLock, none, 100⟩, [1]⟩], [], [],
            [WitnessEx.new [1] [] []]⟩) = .ok s' ∧
      s'.inputs = [⟨wInA.input, wInA.output, true⟩] ∧
      s'.outputs = [⟨⟨wLock, none, 100⟩, [1]⟩] ∧
      s'.witnesses = [WitnessEx.new [1] [] []] := by
  exact roundTrip_traditional wRoundGw
    ⟨[wInA], [⟨⟨wLock, none, 100⟩, [1]⟩], [], [], [WitnessEx.new [1] [] []]⟩
    (by decide) (by decide) (by decide)

theorem daoInput_output (c : IndexerCell) :
    (daoInput c).output.output = c.output := by
  unfold daoInput CellInputEx.newFromIndexerCell CellInputEx.new
  cases c.outputData <;> rfl

theorem headerdep_mem_self (s : TransactionSkeleton) (hd : HeaderDepEx) :
    hd ∈ (s.headerdep hd).headerdeps := by
  unfold TransactionSkeleton.headerdep
  split
  · rename_i hc
    simpa using hc
  · exact List.mem_append_right _ (List.mem_singleton_self hd)

theorem headerdep_mem_mono {s : TransactionSkeleton} {y : HeaderDepEx}
    (hd : HeaderDepEx) (h : y ∈ s.headerdeps) :
    y ∈ (s.headerdep hd).headerdeps := by
  unfold TransactionSkeleton.headerdep
  split
  · exact h
  · exact List.mem_append_left _ h

theorem containsInput_append (s : TransactionSkeleton)
    (x y : CellInputEx) :
    TransactionSkeleton.containsInput
      { s with inputs := s.inputs ++ [x] } y =
      (s.containsInput y || cellInputExEq x y) := by
  simp [TransactionSkeleton.containsInput, List.any_append]

theorem daoMature_cons_pos {hbn : Nat → Option Header} {ub : Nat}
    {c : IndexerCell} (cells : List IndexerCell)
    (h : checkDepositTimestamp hbn ub c.blockNumber = true) :
    daoMature hbn ub (c :: cells) = c :: daoMature hbn ub cells := by
  simp [daoMature, List.filter_cons, h]

theorem daoMature_cons_neg {hbn : Nat → Option Header} {ub : Nat}
    {c : IndexerCell} (cells : List IndexerCell)
    (h : checkDepositTimestamp hbn ub c.blockNumber = false) :
    daoMature hbn ub (c :: cells) = daoMature hbn ub cells := by
  simp [daoMature, List.filter_cons, h]

theorem daoPhaseOneLoop_none (hbn : Nat → Option Header)
    (hbo : OutPoint → Option HeaderDepEx)
    (op : AddDaoWithdrawPhaseOneCells) (tl : Option Script) :
    ∀ (cells : List IndexerCell) (acc : Nat) (s : TransactionSkeleton),
    daoMature hbn op.upperboundTimestamp cells = [] →
    daoPhaseOneLoop hbn hbo op tl cells acc s = .ok (acc, s) := by
  intro cells
  induction cells with
  | nil => intro acc s _; rfl
  | cons c rest ih =>
    intro acc s h
    rcases hp : checkDepositTimestamp hbn op.upperboundTimestamp
        c.blockNumber with _ | _
    · rw [daoMature_cons_neg rest hp] at h
      unfold daoPhaseOneLoop
      rw [hp]
      exact ih acc s h
    · rw [daoMature_cons_pos rest hp] at h
      exact List.noConfusion h

theorem capSum_cons (c : IndexerCell) (l : List IndexerCell) :
    capSum (c :: l) = c.output.capacity + capSum l := by
  simp [capSum]

theorem daoPhaseOneLoop_cons_skip (hbn : Nat → Option Header)
    (hbo : OutPoint → Option HeaderDepEx)
    (op : AddDaoWithdrawPhaseOneCells) (tl : Option Script)
    (c : IndexerCell) (rest : List IndexerCell) (acc : Nat)
    (s : TransactionSkeleton)
    (hp : checkDepositTimestamp hbn op.upperboundTimestamp
      c.blockNumber = false) :
    daoPhaseOneLoop hbn hbo op tl (c :: rest) acc s =
      daoPhaseOneLoop hbn hbo op tl rest acc s := by
  conv_lhs => rw [daoPhaseOneLoop]
  rw [hp]
  simp

theorem daoPhaseOneLoop_cons_mature (hbn : Nat → Option Header)
    (hbo : OutPoint → Option HeaderDepEx)
    (op : AddDaoWithdrawPhaseOneCells) (tl : Option Script)
    (c : IndexerCell) (rest : List IndexerCell) (acc : Nat)
    (s : TransactionSkeleton) (hdep : HeaderDepEx)
    (hp : checkDepositTimestamp hbn op.upperboundTimestamp
      c.blockNumber = true)
    (hbreak : ¬ (op.maximalWithdrawCapacity ≤ acc + c.output.capacity))
    (hhd : hbo c.outPoint = some hdep)
    (hin : s.containsInput (daoInput c) = false) :
    daoPhaseOneLoop hbn hbo op tl (c :: rest) acc s =
      daoPhaseOneLoop hbn hbo op tl rest (acc + c.output.capacity)
        (((({ s with inputs := s.inputs ++ [daoInput c] }).output
          (daoWithdrawOutput hbo tl c)).headerdep hdep).witness
          WitnessEx.default) := by
  have hout := daoInput_output c
  have hwc : daoWithdrawOutput hbo tl c = CellOutputEx.newFromScripts
      (tl.getD c.output.lock) c.output.typ
      (leBytes 8 hdep.header.number) (some c.output.capacity) := by
    unfold daoWithdrawOutput daoHeaderOf
    rw [hhd]
    rfl
  conv_lhs => rw [daoPhaseOneLoop]
  rw [hp]
  simp only [Bool.not_true, Bool.false_eq_true, if_false, daoInput] at hout ⊢
  rw [hout]
  rw [if_neg hbreak, hhd]
  have hinput : TransactionSkeleton.input s
      (CellInputEx.newFromIndexerCell c none) =
      .ok { s with inputs := s.inputs ++
        [CellInputEx.newFromIndexerCell c none] } := by
    unfold TransactionSkeleton.input
    rw [show s.containsInput (CellInputEx.newFromIndexerCell c none) = false
      from hin]
    simp
  rw [hinput, hwc]

theorem daoPhaseOneLoop_spec (hbn : Nat → Option Header)
    (hbo : OutPoint → Option HeaderDepEx)
    (op : AddDaoWithdrawPhaseOneCells) (tl : Option Script) :
    ∀ (cells : List IndexerCell) (acc : Nat) (s : TransactionSkeleton),
    acc + capSum (daoMature hbn op.upperboundTimestamp cells) <
      op.maximalWithdrawCapacity →
    (∀ c ∈ daoMature hbn op.upperboundTimestamp cells,
      (hbo c.outPoint).isSome) →
    (∀ c ∈ daoMature hbn op.upperboundTimestamp cells,
      s.containsInput (daoInput c) = false) →
    ((daoMature hbn op.upperboundTimestamp cells).map
      (fun c => cellInputBytes (daoInput c).input)).Nodup →
    ∃ s', daoPhaseOneLoop hbn hbo op tl cells acc s =
        .ok (acc + capSum (daoMature hbn op.upperboundTimestamp cells), s') ∧
      s'.inputs = s.inputs ++
        (daoMature hbn op.upperboundTimestamp cells).map daoInput ∧
      s'.outputs = s.outputs ++
        (daoMature hbn op.upperboundTimestamp cells).map
          (daoWithdrawOutput hbo tl) ∧
      s'.witnesses = s.witnesses ++ List.replicate
        (daoMature hbn op.upperboundTimestamp cells).length
        WitnessEx.default ∧
      s'.celldeps = s.celldeps ∧
      (∀ y ∈ s.headerdeps, y ∈ s'.headerdeps) ∧
      (∀ c ∈ daoMature hbn op.upperboundTimestamp cells,
        daoHeaderOf hbo c ∈ s'.headerdeps) := by
  intro cells
  induction cells with
  | nil =>
    intro acc s _ _ _ _
    refine ⟨s, ?_, ?_, ?_, ?_, rfl, fun y hy => hy, ?_⟩ <;>
      simp [daoMature, capSum, daoPhaseOneLoop]
  | cons c rest ih =>
    intro acc s hmax hhdr hfresh hnodup
    rcases hp : checkDepositTimestamp hbn op.upperboundTimestamp
        c.blockNumber with _ | _
    · rw [daoMature_cons_neg rest hp] at hmax hhdr hfresh hnodup ⊢
      rw [daoPhaseOneLoop_cons_skip hbn hbo op tl c rest acc s hp]
      exact ih acc s hmax hhdr hfresh hnodup
    · rw [daoMature_cons_pos rest hp] at hmax hhdr hfresh hnodup ⊢
      rw [capSum_cons] at hmax ⊢
      have hcap : 0 ≤ capSum (daoMature hbn op.upperboundTimestamp rest) :=
        Nat.zero_le _
      have hbreak : ¬ (op.maximalWithdrawCapacity ≤
          acc + c.output.capacity) := by omega
      obtain ⟨hdep, hhd⟩ := Option.isSome_iff_exists.mp
        (hhdr c (List.mem_cons_self c _))
      have hin : s.containsInput (daoInput c) = false :=
        hfresh c (List.mem_cons_self c _)
      rw [daoPhaseOneLoop_cons_mature hbn hbo op tl c rest acc s hdep hp
        hbreak hhd hin]
      set s₂ : TransactionSkeleton :=
        ((({ s with inputs := s.inputs ++ [daoInput c] }).output
          (daoWithdrawOutput hbo tl c)).headerdep hdep).witness
          WitnessEx.default with hs₂
      have hs₂inputs : s₂.inputs = s.inputs ++ [daoInput c] := by
        rw [hs₂]
        unfold TransactionSkeleton.witness TransactionSkeleton.headerdep
          TransactionSkeleton.output
        split <;> rfl
      have hs₂outputs : s₂.outputs =
          s.outputs ++ [daoWithdrawOutput hbo tl c] := by
        rw [hs₂]
        unfold TransactionSkeleton.witness TransactionSkeleton.headerdep
          TransactionSkeleton.output
        split <;> rfl
      have hs₂witnesses : s₂.witnesses =
          s.witnesses ++ [WitnessEx.default] := by
        rw [hs₂]
        unfold TransactionSkeleton.witness TransactionSkeleton.headerdep
          TransactionSkeleton.output
        split <;> rfl
      have hs₂celldeps : s₂.celldeps = s.celldeps := by
        rw [hs₂]
        unfold TransactionSkeleton.witness TransactionSkeleton.headerdep
          TransactionSkeleton.output
        split <;> rfl
      have hs₂hd : ∀ y ∈ s.headerdeps, y ∈ s₂.headerdeps := by
        intro y hy
        rw [hs₂]
        exact headerdep_mem_mono hdep hy
      have hs₂hdSelf : hdep ∈ s₂.headerdeps := by
        rw [hs₂]
        exact headerdep_mem_self _ hdep
      have hfresh₂ : ∀ x ∈ daoMature hbn op.upperboundTimestamp rest,
          s₂.containsInput (daoInput x) = false := by
        intro x hx
        have h1 : s.containsInput (daoInput x) = false :=
          hfresh x (List.mem_cons_of_mem c hx)
        have h2 : cellInputBytes (daoInput c).input ≠
            cellInputBytes (daoInput x).input := by
          intro hcontra
          have hmem : cellInputBytes (daoInput x).input ∈
              (daoMature hbn op.upperboundTimestamp rest).map
                (fun y => cellInputBytes (daoInput y).input) :=
            List.mem_map_of_mem _ hx
          rw [← hcontra] at hmem
          exact (List.nodup_cons.mp hnodup).1 hmem
        have h3 : s₂.containsInput (daoInput x) =
            TransactionSkeleton.containsInput
              { s with inputs := s.inputs ++ [daoInput c] } (daoInput x) := by
          unfold TransactionSkeleton.containsInput
          rw [hs₂inputs]
        rw [h3, containsInput_append]
        simp only [Bool.or_eq_false_iff]
        exact ⟨h1, by simp [cellInputExEq, h2]⟩
      obtain ⟨s', hloop, hi, ho, hwits, hcd, hhdmono, hhdall⟩ :=
        ih (acc + c.output.capacity) s₂
          (by omega)
          (fun x hx => hhdr x (List.mem_cons_of_mem c hx))
          hfresh₂
          ((List.nodup_cons.mp hnodup).2)
      refine ⟨s', ?_, ?_, ?_, ?_, ?_, ?_, ?_⟩
      · rw [hloop]
        congr 2
        omega
      · rw [hi, hs₂inputs]
        simp
      · rw [ho, hs₂outputs]
        simp
      · rw [hwits, hs₂witnesses]
        simp [List.replicate_succ]
      · rw [hcd, hs₂celldeps]
      · intro y hy
        exact hhdmono y (hs₂hd y hy)
      · intro x hx
        rcases List.mem_cons.mp hx with hx | hx
        · subst hx
          have : daoHeaderOf hbo x = hdep := by
            unfold daoHeaderOf
            rw [hhd]
            rfl
          rw [this]
          exact hhdmono hdep hs₂hdSelf
        · exact hhdall x hx

theorem addDaoCelldep_fields (fetchDao : Option CellDepEx)
    (t : TransactionSkeleton) (hf : fetchDao.isSome) :
    ∃ t', addDaoCelldep fetchDao t = .ok t' ∧ t'.inputs = t.inputs ∧
      t'.outputs = t.outputs ∧ t'.witnesses = t.witnesses ∧
      (∀ y ∈ t.headerdeps, y ∈ t'.headerdeps) := by
  unfold addDaoCelldep
  split
  · exact ⟨t, rfl, rfl, rfl, rfl, fun y hy => hy⟩
  · rcases fetchDao with _ | cd
    · exact absurd hf (by simp)
    · have hfields : (t.celldep cd).inputs = t.inputs ∧
          (t.celldep cd).outputs = t.outputs ∧
          (t.celldep cd).witnesses = t.witnesses ∧
          (t.celldep cd).headerdeps = t.headerdeps := by
        unfold TransactionSkeleton.celldep
        split <;> exact ⟨rfl, rfl, rfl, rfl⟩
      exact ⟨t.celldep cd, rfl, hfields.1, hfields.2.1, hfields.2.2.1,
        fun y hy => hfields.2.2.2 ▸ hy⟩

/-- C9 counterexample: a single mature deposit cell whose capacity (100)
reaches the requested maximum (50) is counted into the logged total but
never added to the transaction: the run succeeds, the log records 100,
and the skeleton's inputs stay empty — contradicting "for each selected
cell it adds the cell as an input ... the summed matched capacity is
written to the log". -/
theorem daoPhaseOne_dropped_cell_counterexample :
    checkDepositTimestamp wHbn wDaoOp.upperboundTimestamp
      wDaoCell.blockNumber = true ∧
    AddDaoWithdrawPhaseOneCells.run id (fun _ => []) wHbn wHbo
      (some wDaoDep) [wDaoCell] wDaoOp TransactionSkeleton.empty [] =
      .ok (⟨[], [], [wDaoDep], [], []⟩,
        [(daoWithdrawPhaseOneKey, leBytes 8 100)]) ∧
    (⟨[], [], [wDaoDep], [], []⟩ : TransactionSkeleton).inputs = [] := by
  exact ⟨by decide, by rfl, rfl⟩

/-- C9 (amended): when the mature cells' total capacity stays below the
requested maximum (so the early break never fires), phase one selects
exactly the gateway cells whose deposit header timestamp is ≤ the upper
bound, adds each as an input with a paired output of the same capacity
carrying the deposit block number in little-endian plus a header dep on
the deposit header, and logs the summed matched capacity; when no cell is
mature, it logs zero and fails exactly when the caller did not opt to
tolerate emptiness.  (When the maximum is reached, the crossing cell is
logged but dropped — see the counterexample.) -/
theorem daoPhaseOne_run_spec :
    (∀ (blake : List Nat → List Nat) (scriptHash : Script → List Nat)
      (hbn : Nat → Option Header) (hbo : OutPoint → Option HeaderDepEx)
      (fetchDao : Option CellDepEx) (cells : List IndexerCell)
      (op : AddDaoWithdrawPhaseOneCells) (s : TransactionSkeleton)
      (log : Log) (tl : Option Script),
      daoTransferLock blake scriptHash op s = .ok tl →
      capSum (daoMature hbn op.upperboundTimestamp cells) <
        op.maximalWithdrawCapacity →
      (∀ c ∈ daoMature hbn op.upperboundTimestamp cells,
        (hbo c.outPoint).isSome) →
      (∀ c ∈ daoMature hbn op.upperboundTimestamp cells,
        s.containsInput (daoInput c) = false) →
      ((daoMature hbn op.upperboundTimestamp cells).map
        (fun c => cellInputBytes (daoInput c).input)).Nodup →
      (∀ c ∈ daoMature hbn op.upperboundTimestamp cells,
        0 < c.output.capacity) →
      daoMature hbn op.upperboundTimestamp cells ≠ [] →
      fetchDao.isSome →
      ∃ s', AddDaoWithdrawPhaseOneCells.run blake scriptHash hbn hbo
          fetchDao cells op s log = .ok (s', log ++
            [(daoWithdrawPhaseOneKey, leBytes 8
              (capSum (daoMature hbn op.upperboundTimestamp cells)))]) ∧
        s'.inputs = s.inputs ++
          (daoMature hbn op.upperboundTimestamp cells).map daoInput ∧
        s'.outputs = s.outputs ++
          (daoMature hbn op.upperboundTimestamp cells).map
            (daoWithdrawOutput hbo tl) ∧
        s'.witnesses = s.witnesses ++ List.replicate
          (daoMature hbn op.upperboundTimestamp cells).length
          WitnessEx.default ∧
        (∀ c ∈ daoMature hbn op.upperboundTimestamp cells,
          daoHeaderOf hbo c ∈ s'.headerdeps)) ∧
    (∀ (blake : List Nat → List Nat) (scriptHash : Script → List Nat)
      (hbn : Nat → Option Header) (hbo : OutPoint → Option HeaderDepEx)
      (fetchDao : Option CellDepEx) (cells : List IndexerCell)
      (op : AddDaoWithdrawPhaseOneCells) (s : TransactionSkeleton)
      (log : Log) (tl : Option Script),
      daoTransferLock blake scriptHash op s = .ok tl →
      daoMature hbn op.upperboundTimestamp cells = [] →
      AddDaoWithdrawPhaseOneCells.run blake scriptHash hbn hbo
        fetchDao cells op s log =
        if op.throwIfNoAvailable then .error .noAvailableDaoDeposit
        else .ok (s, log ++ [(daoWithdrawPhaseOneKey, leBytes 8 0)])) := by
  constructor
  · intro blake scriptHash hbn hbo fetchDao cells op s log tl htl hmax
      hhdr hfresh hnodup hcap hne hdaoSome
    obtain ⟨s₁, hloop, hi, ho, hwits, hcd, hmono, hall⟩ :=
      daoPhaseOneLoop_spec hbn hbo op tl cells 0 s (by omega) hhdr
        hfresh hnodup
    have hpos : 0 < capSum (daoMature hbn op.upperboundTimestamp cells) := by
      rcases hmat : daoMature hbn op.upperboundTimestamp cells with _ | ⟨c, l⟩
      · exact absurd hmat hne
      · have := hcap c (by rw [hmat]; exact List.mem_cons_self c l)
        rw [capSum_cons]
        omega
    obtain ⟨s₂, hadd, h2i, h2o, h2w, h2hd⟩ :=
      addDaoCelldep_fields fetchDao s₁ hdaoSome
    refine ⟨s₂, ?_, ?_, ?_, ?_, ?_⟩
    · unfold AddDaoWithdrawPhaseOneCells.run
      simp only [bind, Except.bind, htl, hloop, Nat.zero_add, hadd]
      rw [if_neg (by omega)]
    · rw [h2i, hi]
    · rw [h2o, ho]
    · rw [h2w, hwits]
    · intro c hc
      exact h2hd _ (hall c hc)
  · intro blake scriptHash hbn hbo fetchDao cells op s log tl htl hmat
    unfold AddDaoWithdrawPhaseOneCells.run
    simp only [bind, Except.bind, htl,
      daoPhaseOneLoop_none hbn hbo op tl cells 0 s hmat]
    simp

/-- Witness for C9 (amended): one mature cell below the maximum is added
with its paired output, header dep and logged capacity; an empty search
with `throw_if_no_avaliable` fails. -/
theorem daoPhaseOne_run_spec_witness :
    (∃ s', AddDaoWithdrawPhaseOneCells.run id (fun _ => []) wHbn wHbo
        (some wDaoDep) [wDaoCell] wDaoOp2 TransactionSkeleton.empty [] =
        .ok (s', [(daoWithdrawPhaseOneKey, leBytes 8 100)]) ∧
      s'.inputs = [daoInput wDaoCell] ∧
      s'.outputs = [daoWithdrawOutput wHbo none wDaoCell] ∧
      s'.witnesses = [WitnessEx.default] ∧
      daoHeaderOf wHbo wDaoCell ∈ s'.headerdeps) ∧
    AddDaoWithdrawPhaseOneCells.run id (fun _ => []) wHbn wHbo
      (some wDaoDep) [] wDaoOp2 TransactionSkeleton.empty [] =
      .error .noAvailableDaoDeposit := by
  constructor
  · obtain ⟨s', hrun, hi, ho, hw, hall⟩ :=
      daoPhaseOne_run_spec.1 id (fun _ => []) wHbn wHbo (some wDaoDep)
        [wDaoCell] wDaoOp2 TransactionSkeleton.empty [] none rfl
        (by decide) (by decide) (by decide) (by decide) (by decide)
        (by decide) rfl
    exact ⟨s', hrun, by simpa using hi, by simpa using ho,
      by simpa using hw, hall wDaoCell (by decide)⟩
  · have := daoPhaseOne_run_spec.2 id (fun _ => []) wHbn wHbo
      (some wDaoDep) [] wDaoOp2 TransactionSkeleton.empty [] none rfl
      (by decide)
    simpa using this

theorem find?_congr {α : Type} (p q : α → Bool) :
    ∀ (l : List α), (∀ a ∈ l, p a = q a) → l.find? p = l.find? q := by
  intro l
  induction l with
  | nil => intro _; rfl
  | cons x xs ih =>
    intro h
    rw [List.find?_cons, List.find?_cons, h x (List.mem_cons_self x xs),
      ih (fun a ha => h a (List.mem_cons_of_mem x ha))]

theorem eraseP_congr {α : Type} (p q : α → Bool) :
    ∀ (l : List α), (∀ a ∈ l, p a = q a) → l.eraseP p = l.eraseP q := by
  intro l
  induction l with
  | nil => intro _; rfl
  | cons x xs ih =>
    intro h
    rw [List.eraseP_cons, List.eraseP_cons, h x (List.mem_cons_self x xs),
      ih (fun a ha => h a (List.mem_cons_of_mem x ha))]

theorem eraseP_id_eq_filter (x : List Nat) :
    ∀ (outs : List (CellOutputEx × List Nat)), (pairIds outs).Nodup →
    outs.eraseP (fun q => decide (q.2 = x)) =
      outs.filter (fun q => !decide (q.2 = x)) := by
  intro outs
  induction outs with
  | nil => intro _; rfl
  | cons q rest ih =>
    intro hnd
    rcases hq : decide (q.2 = x) with _ | _
    · rw [List.eraseP_cons, List.filter_cons, hq]
      simp only [Bool.not_false, if_true]
      rw [ih (List.nodup_cons.mp hnd).2]
      rfl
    · rw [List.eraseP_cons, List.filter_cons, hq]
      simp only [Bool.not_true]
      have hqx : q.2 = x := of_decide_eq_true hq
      have hrest : rest.filter (fun r => !decide (r.2 = x)) = rest := by
        rw [List.filter_eq_self]
        intro a ha
        have : a.2 ≠ x := by
          intro hax
          have hmem : a.2 ∈ pairIds rest :=
            List.mem_map_of_mem Prod.snd ha
          rw [hax, ← hqx] at hmem
          exact (List.nodup_cons.mp hnd).1 hmem
        simp [this]
      simp [hrest]

theorem countP_id_nodup (x : List Nat) :
    ∀ (l : List (CellOutputEx × List Nat)), (pairIds l).Nodup →
    l.countP (fun q => decide (q.2 = x)) =
      if x ∈ pairIds l then 1 else 0 := by
  intro l
  induction l with
  | nil => intro _; simp [pairIds]
  | cons q rest ih =>
    intro hnd
    rw [List.countP_cons, ih (List.nodup_cons.mp hnd).2]
    rcases hq : decide (q.2 = x) with _ | _
    · have hqx : q.2 ≠ x := of_decide_eq_false hq
      have hm : x ∈ pairIds (q :: rest) ↔ x ∈ pairIds rest := by
        simp [pairIds, Ne.symm hqx]
      simp [hm]
    · have hqx : q.2 = x := of_decide_eq_true hq
      have hni : x ∉ pairIds rest := by
        rw [← hqx]
        exact (List.nodup_cons.mp hnd).1
      have hm : x ∈ pairIds (q :: rest) := by
        simp [pairIds, hqx.symm]
      simp [hm, hni]

theorem mem_pairIds_filter {x i : List Nat}
    {outs : List (CellOutputEx × List Nat)} :
    x ∈ pairIds (outs.filter (fun q => !decide (q.2 = i))) ↔
      (x ∈ pairIds outs ∧ x ≠ i) := by
  unfold pairIds
  constructor
  · intro h
    obtain ⟨q, hq, hqx⟩ := List.mem_map.mp h
    obtain ⟨hqmem, hqpred⟩ := List.mem_filter.mp hq
    subst hqx
    refine ⟨List.mem_map_of_mem Prod.snd hqmem, ?_⟩
    simpa using hqpred
  · rintro ⟨h, hne⟩
    obtain ⟨q, hq, hqx⟩ := List.mem_map.mp h
    subst hqx
    refine List.mem_map_of_mem Prod.snd (List.mem_filter.mpr ⟨hq, ?_⟩)
    simpa using hne

theorem nodup_pairIds_filter {p : CellOutputEx × List Nat → Bool}
    {outs : List (CellOutputEx × List Nat)}
    (h : (pairIds outs).Nodup) : (pairIds (outs.filter p)).Nodup :=
  List.Nodup.sublist ((List.filter_sublist outs).map Prod.snd) h

theorem pairIds_cons (p : CellOutputEx × List Nat)
    (l : List (CellOutputEx × List Nat)) :
    pairIds (p :: l) = p.2 :: pairIds l := rfl

theorem not_decide_and (a b : Prop) [Decidable a] [Decidable b] :
    ((!decide a) && (!decide b)) = !decide (a ∨ b) := by
  by_cases ha : a <;> by_cases hb : b <;> simp [ha, hb]

theorem sporeTransferBurn_spec :
    ∀ (ins outs : List (CellOutputEx × List Nat)),
    (∀ p ∈ ins, ∀ q ∈ outs,
      (q.1.output.typ = p.1.output.typ ↔ q.2 = p.2)) →
    (pairIds ins).Nodup → (pairIds outs).Nodup →
    (sporeTransferBurn ins outs).2 =
      outs.filter (fun q => !decide (q.2 ∈ pairIds ins)) ∧
    (∀ x, (sporeTransferBurn ins outs).1.countP (isTransferSporeWith x) =
      if x ∈ pairIds ins ∧ x ∈ pairIds outs then 1 else 0) ∧
    (∀ x, (sporeTransferBurn ins outs).1.countP (isBurnSporeWith x) =
      if x ∈ pairIds ins ∧ x ∉ pairIds outs then 1 else 0) ∧
    (∀ x, (sporeTransferBurn ins outs).1.countP (isMintSporeWith x) = 0) := by
  intro ins
  induction ins with
  | nil =>
    intro outs _ _ _
    refine ⟨?_, ?_, ?_, ?_⟩
    · simp [sporeTransferBurn, pairIds]
    · intro x; simp [sporeTransferBurn, pairIds]
    · intro x; simp [sporeTransferBurn, pairIds]
    · intro x; simp [sporeTransferBurn]
  | cons p rest ih =>
    intro outs hu hni hno
    rw [pairIds_cons] at hni
    have hni' : (pairIds rest).Nodup := (List.nodup_cons.mp hni).2
    have hhead : p.2 ∉ pairIds rest := (List.nodup_cons.mp hni).1
    have hu_head := hu p (List.mem_cons_self p rest)
    have hpt : ∀ q ∈ outs,
        decide (q.1.output.typ = p.1.output.typ) = decide (q.2 = p.2) := by
      intro q hq
      exact decide_eq_decide.mpr (hu_head q hq)
    have hfind : outs.find?
        (fun q => decide (q.1.output.typ = p.1.output.typ)) =
        outs.find? (fun q => decide (q.2 = p.2)) :=
      find?_congr _ _ outs hpt
    have herase : outs.eraseP
        (fun q => decide (q.1.output.typ = p.1.output.typ)) =
        outs.eraseP (fun q => decide (q.2 = p.2)) :=
      eraseP_congr _ _ outs hpt
    by_cases hmem : p.2 ∈ pairIds outs
    · -- transfer case: a matching output exists and is consumed
      have hex : ∃ q0, outs.find? (fun q => decide (q.2 = p.2)) =
          some q0 := by
        rcases hf : outs.find? (fun q => decide (q.2 = p.2)) with _ | q0
        · exfalso
          rw [List.find?_eq_none] at hf
          obtain ⟨q, hq, hqid⟩ := List.mem_map.mp hmem
          exact hf q hq (by simp [hqid])
        · exact ⟨q0, hf⟩
      obtain ⟨q0, hf⟩ := hex
      have herase2 : outs.eraseP
          (fun q => decide (q.1.output.typ = p.1.output.typ)) =
          outs.filter (fun q => !decide (q.2 = p.2)) := by
        rw [herase, eraseP_id_eq_filter p.2 outs hno]
      have hstep : sporeTransferBurn (p :: rest) outs =
          (SporeAction.transferSpore (q0.1.output.typ.getD defaultScript)
            p.1.output.lock q0.1.output.lock p.2 ::
            (sporeTransferBurn rest
              (outs.filter (fun q => !decide (q.2 = p.2)))).1,
           (sporeTransferBurn rest
              (outs.filter (fun q => !decide (q.2 = p.2)))).2) := by
        conv_lhs => rw [sporeTransferBurn]
        rw [hfind, hf, herase2]
      have hu' : ∀ p' ∈ rest,
          ∀ q ∈ outs.filter (fun q => !decide (q.2 = p.2)),
          (q.1.output.typ = p'.1.output.typ ↔ q.2 = p'.2) := by
        intro p' hp' q hq
        exact hu p' (List.mem_cons_of_mem p hp') q (List.mem_of_mem_filter hq)
      obtain ⟨ihrem, ihT, ihB, ihM⟩ :=
        ih (outs.filter (fun q => !decide (q.2 = p.2))) hu' hni'
          (nodup_pairIds_filter hno)
      refine ⟨?_, ?_, ?_, ?_⟩
      · rw [hstep]
        simp only
        rw [ihrem, List.filter_filter]
        apply List.filter_congr
        intro q hq
        have hm : (q.2 ∈ pairIds (p :: rest)) ↔
            (q.2 ∈ pairIds rest ∨ q.2 = p.2) := by
          rw [pairIds_cons, List.mem_cons]
          tauto
        rw [show decide (q.2 ∈ pairIds (p :: rest)) =
          decide (q.2 ∈ pairIds rest ∨ q.2 = p.2) from
          decide_eq_decide.mpr hm]
        exact not_decide_and _ _
      · intro x
        rw [hstep]
        simp only [List.countP_cons]
        rw [ihT x]
        by_cases hx : x = p.2
        · have h2 : ¬ (x ∈ pairIds rest ∧ x ∈ pairIds
              (outs.filter (fun q => !decide (q.2 = p.2)))) := by
            rintro ⟨h1, -⟩
            rw [hx] at h1
            exact hhead h1
          have h1 : x ∈ pairIds (p :: rest) ∧ x ∈ pairIds outs := by
            rw [pairIds_cons, hx]
            exact ⟨List.mem_cons_self _ _, hmem⟩
          rw [if_neg h2, if_pos h1]
          have hhd : isTransferSporeWith x (SporeAction.transferSpore
              (q0.1.output.typ.getD defaultScript) p.1.output.lock
              q0.1.output.lock p.2) = true := by
            simp [isTransferSporeWith, hx]
          rw [hhd]
          simp
        · have hiff : (x ∈ pairIds rest ∧ x ∈ pairIds
              (outs.filter (fun q => !decide (q.2 = p.2)))) ↔
              (x ∈ pairIds (p :: rest) ∧ x ∈ pairIds outs) := by
            rw [pairIds_cons, mem_pairIds_filter, List.mem_cons]
            constructor
            · rintro ⟨h1, h2, -⟩
              exact ⟨Or.inr h1, h2⟩
            · rintro ⟨h1, h2⟩
              rcases h1 with h1 | h1
              · exact absurd h1 hx
              · exact ⟨h1, h2, hx⟩
          rw [if_congr hiff rfl rfl]
          have hne : p.2 ≠ x := fun h => hx h.symm
          have hhd : isTransferSporeWith x (SporeAction.transferSpore
              (q0.1.output.typ.getD defaultScript) p.1.output.lock
              q0.1.output.lock p.2) = false := by
            simp [isTransferSporeWith, hne]
          rw [hhd]
          simp
      · intro x
        rw [hstep]
        simp only [List.countP_cons]
        rw [ihB x]
        have hhd : isBurnSporeWith x (SporeAction.transferSpore
            (q0.1.output.typ.getD defaultScript) p.1.output.lock
            q0.1.output.lock p.2) = false := by
          simp [isBurnSporeWith]
        rw [hhd]
        by_cases hx : x = p.2
        · have h2 : ¬ (x ∈ pairIds rest ∧ x ∉ pairIds
              (outs.filter (fun q => !decide (q.2 = p.2)))) := by
            rintro ⟨h1, -⟩
            rw [hx] at h1
            exact hhead h1
          have h3 : ¬ (x ∈ pairIds (p :: rest) ∧ x ∉ pairIds outs) := by
            rintro ⟨-, h4⟩
            rw [hx] at h4
            exact h4 hmem
          rw [if_neg h2, if_neg h3]
          simp
        · have hiff : (x ∈ pairIds rest ∧ x ∉ pairIds
              (outs.filter (fun q => !decide (q.2 = p.2)))) ↔
              (x ∈ pairIds (p :: rest) ∧ x ∉ pairIds outs) := by
            rw [pairIds_cons, mem_pairIds_filter, List.mem_cons]
            constructor
            · rintro ⟨h1, h2⟩
              refine ⟨Or.inr h1, fun hout => h2 ⟨hout, hx⟩⟩
            · rintro ⟨h1, h2⟩
              rcases h1 with h1 | h1
              · exact absurd h1 hx
              · exact ⟨h1, fun hc => h2 hc.1⟩
          rw [if_congr hiff rfl rfl]
          simp
      · intro x
        rw [hstep]
        simp only [List.countP_cons]
        rw [ihM x]
        have hhd : isMintSporeWith x (SporeAction.transferSpore
            (q0.1.output.typ.getD defaultScript) p.1.output.lock
            q0.1.output.lock p.2) = false := by
          simp [isMintSporeWith]
        rw [hhd]
        simp
    · -- burn case: no matching output
      have hf : outs.find? (fun q => decide (q.2 = p.2)) = none := by
        rw [List.find?_eq_none]
        intro q hq hqd
        exact hmem (of_decide_eq_true hqd ▸
          List.mem_map_of_mem Prod.snd hq)
      have hstep : sporeTransferBurn (p :: rest) outs =
          (SporeAction.burnSpore (p.1.output.typ.getD defaultScript)
            p.1.output.lock p.2 :: (sporeTransferBurn rest outs).1,
           (sporeTransferBurn rest outs).2) := by
        conv_lhs => rw [sporeTransferBurn]
        rw [hfind, hf]
      have hu' : ∀ p' ∈ rest, ∀ q ∈ outs,
          (q.1.output.typ = p'.1.output.typ ↔ q.2 = p'.2) :=
        fun p' hp' q hq => hu p' (List.mem_cons_of_mem p hp') q hq
      obtain ⟨ihrem, ihT, ihB, ihM⟩ := ih outs hu' hni' hno
      refine ⟨?_, ?_, ?_, ?_⟩
      · rw [hstep]
        simp only
        rw [ihrem]
        apply List.filter_congr
        intro q hq
        have hqp : q.2 ≠ p.2 := by
          intro hc
          exact hmem (hc ▸ List.mem_map_of_mem Prod.snd hq)
        have hm : (q.2 ∈ pairIds (p :: rest)) ↔ (q.2 ∈ pairIds rest) := by
          rw [pairIds_cons, List.mem_cons]
          constructor
          · rintro (h | h)
            · exact absurd h hqp
            · exact h
          · exact Or.inr
        rw [show decide (q.2 ∈ pairIds (p :: rest)) =
          decide (q.2 ∈ pairIds rest) from decide_eq_decide.mpr hm]
      · intro x
        rw [hstep]
        simp only [List.countP_cons]
        rw [ihT x]
        have hhd : isTransferSporeWith x (SporeAction.burnSpore
            (p.1.output.typ.getD defaultScript) p.1.output.lock p.2) =
            false := by
          simp [isTransferSporeWith]
        rw [hhd]
        by_cases hx : x = p.2
        · have h2 : ¬ (x ∈ pairIds rest ∧ x ∈ pairIds outs) := by
            rintro ⟨-, h4⟩
            rw [hx] at h4
            exact hmem h4
          have h3 : ¬ (x ∈ pairIds (p :: rest) ∧ x ∈ pairIds outs) := by
            rintro ⟨-, h4⟩
            rw [hx] at h4
            exact hmem h4
          rw [if_neg h2, if_neg h3]
          simp
        · have hiff : (x ∈ pairIds rest ∧ x ∈ pairIds outs) ↔
              (x ∈ pairIds (p :: rest) ∧ x ∈ pairIds outs) := by
            rw [pairIds_cons, List.mem_cons]
            constructor
            · rintro ⟨h1, h2⟩
              exact ⟨Or.inr h1, h2⟩
            · rintro ⟨h1, h2⟩
              rcases h1 with h1 | h1
              · exact absurd h1 hx
              · exact ⟨h1, h2⟩
          rw [if_congr hiff rfl rfl]
          simp
      · intro x
        rw [hstep]
        simp only [List.countP_cons]
        rw [ihB x]
        by_cases hx : x = p.2
        · have h2 : ¬ (x ∈ pairIds rest ∧ x ∉ pairIds outs) := by
            rintro ⟨h1, -⟩
            rw [hx] at h1
            exact hhead h1
          have h3 : x ∈ pairIds (p :: rest) ∧ x ∉ pairIds outs := by
            rw [pairIds_cons, hx]
            exact ⟨List.mem_cons_self _ _, hmem⟩
          rw [if_neg h2, if_pos h3]
          have hhd : isBurnSporeWith x (SporeAction.burnSpore
              (p.1.output.typ.getD defaultScript) p.1.output.lock p.2) =
              true := by
            simp [isBurnSporeWith, hx]
          rw [hhd]
          simp
        · have hiff : (x ∈ pairIds rest ∧ x ∉ pairIds outs) ↔
              (x ∈ pairIds (p :: rest) ∧ x ∉ pairIds outs) := by
            rw [pairIds_cons, List.mem_cons]
            constructor
            · rintro ⟨h1, h2⟩
              exact ⟨Or.inr h1, h2⟩
            · rintro ⟨h1, h2⟩
              rcases h1 with h1 | h1
              · exact absurd h1 hx
              · exact ⟨h1, h2⟩
          rw [if_congr hiff rfl rfl]
          have hne : p.2 ≠ x := fun h => hx h.symm
          have hhd : isBurnSporeWith x (SporeAction.burnSpore
              (p.1.output.typ.getD defaultScript) p.1.output.lock p.2) =
              false := by
            simp [isBurnSporeWith, hne]
          rw [hhd]
          simp
      · intro x
        rw [hstep]
        simp only [List.countP_cons]
        rw [ihM x]
        have hhd : isMintSporeWith x (SporeAction.burnSpore
            (p.1.output.typ.getD defaultScript) p.1.output.lock p.2) =
            false := by
          simp [isMintSporeWith]
        rw [hhd]
        simp

theorem mem_pairIds_filter_not_mem {x : List Nat} {ids : List (List Nat)}
    {outs : List (CellOutputEx × List Nat)} :
    x ∈ pairIds (outs.filter (fun q => !decide (q.2 ∈ ids))) ↔
      (x ∈ pairIds outs ∧ x ∉ ids) := by
  unfold pairIds
  constructor
  · intro h
    obtain ⟨q, hq, hqx⟩ := List.mem_map.mp h
    obtain ⟨hqmem, hqpred⟩ := List.mem_filter.mp hq
    subst hqx
    refine ⟨List.mem_map_of_mem Prod.snd hqmem, ?_⟩
    simpa using hqpred
  · rintro ⟨h, hne⟩
    obtain ⟨q, hq, hqx⟩ := List.mem_map.mp h
    subst hqx
    refine List.mem_map_of_mem Prod.snd (List.mem_filter.mpr ⟨hq, ?_⟩)
    simpa using hne

/-- C8: on a skeleton whose spore-matched cells carry pairwise-distinct
unique ids on each side and whose type scripts agree exactly when their
ids agree (true whenever the matched cells share one hash type, as the
deployed contract fixes), `AddSporeActions` emits exactly one transfer per
id present among both matched inputs and outputs, one burn per id present
only among inputs, one mint per id present only among outputs — never a
mint+burn pair for a shared id — and appends all resulting actions as a
single aggregated plain witness. -/
theorem addSporeActions_reconciliation :
    ∀ (blake : List Nat → List Nat)
      (actionsBytes : List SporeAction → List Nat)
      (sporeCodeHash clusterCodeHash : List Nat) (s : TransactionSkeleton),
      (∀ p ∈ matchedInputs sporeCodeHash s,
        ∀ q ∈ matchedOutputs sporeCodeHash s,
        (q.1.output.typ = p.1.output.typ ↔ q.2 = p.2)) →
      (pairIds (matchedInputs sporeCodeHash s)).Nodup →
      (pairIds (matchedOutputs sporeCodeHash s)).Nodup →
      (∀ x : List Nat,
        (sporeActionsOf blake sporeCodeHash s).countP
            (isTransferSporeWith x) =
          (if x ∈ pairIds (matchedInputs sporeCodeHash s) ∧
              x ∈ pairIds (matchedOutputs sporeCodeHash s)
           then 1 else 0) ∧
        (sporeActionsOf blake sporeCodeHash s).countP (isBurnSporeWith x) =
          (if x ∈ pairIds (matchedInputs sporeCodeHash s) ∧
              x ∉ pairIds (matchedOutputs sporeCodeHash s)
           then 1 else 0) ∧
        (sporeActionsOf blake sporeCodeHash s).countP (isMintSporeWith x) =
          (if x ∈ pairIds (matchedOutputs sporeCodeHash s) ∧
              x ∉ pairIds (matchedInputs sporeCodeHash s)
           then 1 else 0)) ∧
      AddSporeActions.run blake actionsBytes sporeCodeHash clusterCodeHash
          s =
        s.witness (WitnessEx.newPlain (actionsBytes
          (sporeActionsOf blake sporeCodeHash s ++
            clusterActionsOf blake clusterCodeHash s))) := by
  intro blake actionsBytes sporeCodeHash clusterCodeHash s hu hni hno
  obtain ⟨hrem, hT, hB, hM⟩ := sporeTransferBurn_spec
    (matchedInputs sporeCodeHash s) (matchedOutputs sporeCodeHash s)
    hu hni hno
  have hnodrem : (pairIds (sporeTransferBurn
      (matchedInputs sporeCodeHash s)
      (matchedOutputs sporeCodeHash s)).2).Nodup := by
    rw [hrem]
    exact nodup_pairIds_filter hno
  refine ⟨?_, rfl⟩
  intro x
  have hsplit : sporeActionsOf blake sporeCodeHash s =
      (sporeTransferBurn (matchedInputs sporeCodeHash s)
        (matchedOutputs sporeCodeHash s)).1 ++
      sporeMints blake (sporeTransferBurn (matchedInputs sporeCodeHash s)
        (matchedOutputs sporeCodeHash s)).2 := rfl
  have hmT : (sporeMints blake (sporeTransferBurn
      (matchedInputs sporeCodeHash s)
      (matchedOutputs sporeCodeHash s)).2).countP
      (isTransferSporeWith x) = 0 := by
    unfold sporeMints
    rw [List.countP_map]
    refine List.countP_eq_zero.mpr ?_
    intro a _
    simp [Function.comp, isTransferSporeWith]
  have hmB : (sporeMints blake (sporeTransferBurn
      (matchedInputs sporeCodeHash s)
      (matchedOutputs sporeCodeHash s)).2).countP
      (isBurnSporeWith x) = 0 := by
    unfold sporeMints
    rw [List.countP_map]
    refine List.countP_eq_zero.mpr ?_
    intro a _
    simp [Function.comp, isBurnSporeWith]
  have hmM : (sporeMints blake (sporeTransferBurn
      (matchedInputs sporeCodeHash s)
      (matchedOutputs sporeCodeHash s)).2).countP
      (isMintSporeWith x) =
      if x ∈ pairIds (sporeTransferBurn (matchedInputs sporeCodeHash s)
        (matchedOutputs sporeCodeHash s)).2 then 1 else 0 := by
    unfold sporeMints
    rw [List.countP_map]
    have hfun : (isMintSporeWith x ∘ fun q : CellOutputEx × List Nat =>
        SporeAction.mintSpore (q.1.output.typ.getD defaultScript)
          q.1.output.lock q.2 (q.1.dataHash blake)) =
        (fun q : CellOutputEx × List Nat => decide (q.2 = x)) := rfl
    rw [hfun]
    exact countP_id_nodup x _ hnodrem
  refine ⟨?_, ?_, ?_⟩
  · rw [hsplit, List.countP_append, hT x, hmT]
    simp
  · rw [hsplit, List.countP_append, hB x, hmB]
    simp
  · rw [hsplit, List.countP_append, hM x, hmM]
    have hiff : (x ∈ pairIds (sporeTransferBurn
        (matchedInputs sporeCodeHash s)
        (matchedOutputs sporeCodeHash s)).2) ↔
        (x ∈ pairIds (matchedOutputs sporeCodeHash s) ∧
          x ∉ pairIds (matchedInputs sporeCodeHash s)) := by
      rw [hrem]
      exact mem_pairIds_filter_not_mem
    rw [if_congr hiff rfl rfl]
    simp

/-- Witness for C8: on the concrete one-spore transfer skeleton
`wSporeSkel`, the reconciliation produces exactly one transfer action,
no burn and no mint for the shared unique id, and `run` appends the
single plain action witness. -/
theorem addSporeActions_reconciliation_witness :
    ((∀ p ∈ matchedInputs wSporeHash wSporeSkel,
        ∀ q ∈ matchedOutputs wSporeHash wSporeSkel,
        (q.1.output.typ = p.1.output.typ ↔ q.2 = p.2)) ∧
      (pairIds (matchedInputs wSporeHash wSporeSkel)).Nodup ∧
      (pairIds (matchedOutputs wSporeHash wSporeSkel)).Nodup) ∧
    (sporeActionsOf id wSporeHash wSporeSkel).countP
        (isTransferSporeWith (List.replicate 32 1)) = 1 ∧
    (sporeActionsOf id wSporeHash wSporeSkel).countP
        (isBurnSporeWith (List.replicate 32 1)) = 0 ∧
    (sporeActionsOf id wSporeHash wSporeSkel).countP
        (isMintSporeWith (List.replicate 32 1)) = 0 ∧
    AddSporeActions.run id (fun _ => List.replicate 4 0) wSporeHash
        wClusterHash wSporeSkel =
      wSporeSkel.witness (WitnessEx.newPlain (List.replicate 4 0)) := by
  obtain ⟨hcounts, hrun⟩ := addSporeActions_reconciliation id
    (fun _ => List.replicate 4 0) wSporeHash wClusterHash wSporeSkel
    (by decide) (by decide) (by decide)
  obtain ⟨h1, h2, h3⟩ := hcounts (List.replicate 32 1)
  refine ⟨⟨by decide, by decide, by decide⟩, ?_, ?_, ?_, hrun⟩
  · rw [h1]; decide
  · rw [h2]; decide
  · rw [h3]; decide

end Cinnabar
